import Mathlib

/-!
Verification development for the CGRtools dual-state reaction graph library
(files `CGRtools/files/CGRrw.py` and `CGRtools/containers/cgr.py`).

The Python source is shallowly embedded: strings are processed as `List Char`,
machine integers as `Int`/`Nat`, Python floats (which here only ever hold exact
decimal coordinate values) as `Rat`, Python `None`-able values as `Option`, and
code that can raise an exception returns `Option` (with `none` for the raised
exception) or `Except`.
-/

namespace CGR

/-! ## Small string utilities (models of Python `str.split` and `int()`) -/

/-- Splitting accumulator: model of Python `value.split(sep)` on char lists. -/
def splitCharAux (c : Char) : List Char → List Char → List (List Char)
  | [], acc => [acc.reverse]
  | x :: xs, acc =>
    if x = c then acc.reverse :: splitCharAux c xs []
    else splitCharAux c xs (x :: acc)

/-- Model of Python `s.split(c)` (single-char separator, keeps empty parts). -/
def splitChar (c : Char) (l : List Char) : List (List Char) :=
  splitCharAux c l []

/-- Model of a decimal digit character to its value; `none` if not a digit. -/
def charDigit (c : Char) : Option Nat :=
  if c = '0' then some 0
  else if c = '1' then some 1
  else if c = '2' then some 2
  else if c = '3' then some 3
  else if c = '4' then some 4
  else if c = '5' then some 5
  else if c = '6' then some 6
  else if c = '7' then some 7
  else if c = '8' then some 8
  else if c = '9' then some 9
  else none

/-- Value of a decimal digit as a character (defined for d < 10). -/
def digitChar (d : Nat) : Char :=
  if d = 0 then '0'
  else if d = 1 then '1'
  else if d = 2 then '2'
  else if d = 3 then '3'
  else if d = 4 then '4'
  else if d = 5 then '5'
  else if d = 6 then '6'
  else if d = 7 then '7'
  else if d = 8 then '8'
  else '9'

/-- Fold a most-significant-first digit list into a number. -/
def digitsAcc : List Char → Nat → Option Nat
  | [], acc => some acc
  | c :: cs, acc =>
    match charDigit c with
    | none => none
    | some d => digitsAcc cs (acc * 10 + d)

/-- Model of parsing an unsigned decimal numeral; `none` = Python `ValueError`. -/
def parseNat : List Char → Option Nat
  | [] => none
  | l => digitsAcc l 0

/-- Model of Python `int(s)`: optional sign followed by digits. -/
def parseInt : List Char → Option Int
  | [] => none
  | c :: cs =>
    if c = '-' then Option.map (fun n : Nat => -(n : Int)) (parseNat cs)
    else if c = '+' then Option.map (fun n : Nat => (n : Int)) (parseNat cs)
    else Option.map (fun n : Nat => (n : Int)) (parseNat (c :: cs))

/-- Fuel-driven little-endian decimal digits of a natural number. -/
def natDigitsRev : Nat → Nat → List Char
  | 0, _ => []
  | fuel + 1, n => if n = 0 then [] else digitChar (n % 10) :: natDigitsRev fuel (n / 10)

/-- Model of Python `'%d' % n` for a natural number, as a char list. -/
def renderNat (n : Nat) : List Char :=
  if n = 0 then ['0'] else (natDigitsRev n n).reverse

/-- Model of Python `'%+d' % d`: sign is always printed. -/
def renderSignedInt (d : Int) : List Char :=
  if d < 0 then '-' :: renderNat d.natAbs else '+' :: renderNat d.natAbs

/-- Model of Python `'%s' % x` for a non-negative integer (used by the bond table). -/
def renderInt (d : Int) : List Char :=
  if d < 0 then '-' :: renderNat d.natAbs else renderNat d.natAbs

/-! ## Record-decoder value micro-grammar (`CGRread.__parsedyn` / `__parselist`)

A decoded token value is either an integer (bond orders, hybridization codes,
neighbor counts, charges) or a string (stereo labels); Python stores either in
the same dict slot, so the embedding uses a sum type. -/

/-- Decoded mark value: integer-valued or string-valued. -/
inductive MVal
  | int : Int → MVal
  | str : List Char → MVal
deriving DecidableEq, Repr

/-- Table `bondlabels` of `CGRrw.py`: token to bond order; outer `none` is a
Python `KeyError`, inner `none` is Python `None`. -/
def bondlabels (t : List Char) : Option (Option MVal) :=
  if t = ['0'] then some none
  else if t = ['1'] then some (some (MVal.int 1))
  else if t = ['2'] then some (some (MVal.int 2))
  else if t = ['3'] then some (some (MVal.int 3))
  else if t = ['4'] then some (some (MVal.int 4))
  else if t = ['9'] then some (some (MVal.int 9))
  else if t = ['n'] then some none
  else if t = ['s'] then some (some (MVal.int 9))
  else none

/-- Table `stereolabels` of `CGRrw.py`. -/
def stereolabels (t : List Char) : Option (Option MVal) :=
  if t = ['e'] ∨ t = ['z'] ∨ t = ['u'] ∨ t = ['r'] ∨ t = ['s'] ∨
     t = ['r', 'e'] ∨ t = ['s', 'i'] then some (some (MVal.str t))
  else if t = ['n'] then some none
  else none

/-- Token decoding shared by `__parsedyn` and `__parselist`: table lookup for
`bond` and `stereo` marks, else Python `s != 'n' and int(s) or None`. -/
def decodeLabel (name : String) (t : List Char) : Option (Option MVal) :=
  if name = "bond" then bondlabels t
  else if name = "stereo" then stereolabels t
  else if t = ['n'] then some none
  else match parseInt t with
       | none => none
       | some v => if v = 0 then some none else some (some (MVal.int v))

/-- Python `s, *_, p = x.split('>')`: first and last part of the token; a token
with no `>` splits into a single part and the unpacking raises `ValueError`,
modelled as `none`. -/
def splitTrans (x : List Char) : Option (List Char × List Char) :=
  match splitChar '>' x with
  | [] => none
  | [_] => none
  | s :: rest => some (s, rest.getLastD [])

/-- Result dict of `__parsedyn`: `single a b` is the dict holding `sp = (a, b)`
with the `s`/`p` keys present exactly when the component is not `None`;
`multi l0 l1` holds the three list-valued keys. -/
inductive DynOut
  | single : Option MVal → Option MVal → DynOut
  | multi : List (Option MVal) → List (Option MVal) → DynOut
deriving DecidableEq, Repr

/-- Interpretation stage of `__parsedyn` on the already-split `(s, p)` side
pairs: pairs whose two sides coincide are dropped, then one transition pair
gives a single decoded pair, several give distinct-checked lists, and anything
else gives Python `None` (inner `none`).  Outer `none` is a raised label
lookup/parse exception. -/
def parsedynPairs (name : String) (pairs : List (List Char × List Char)) :
    Option (Option DynOut) :=
  let kept := pairs.filter (fun q => decide (q.1 ≠ q.2))
  match kept.mapM (fun q => do
      let a ← decodeLabel name q.1
      let b ← decodeLabel name q.2
      pure (a, b)) with
  | none => none
  | some [] => some none
  | some [(a, b)] => some (some (DynOut.single a b))
  | some l =>
    if l.Nodup then some (some (DynOut.multi (l.map Prod.fst) (l.map Prod.snd)))
    else some none

/-- Model of `CGRread.__parsedyn` on an already comma-split token list: every
token is unpacked into its two sides (a malformed token raises), the no-op
pairs are dropped, and the kept pairs are interpreted. -/
def parsedynToks (name : String) (toks : List (List Char)) : Option (Option DynOut) :=
  match toks.mapM splitTrans with
  | none => none
  | some pairs => parsedynPairs name pairs

/-- Model of `CGRread.__parsedyn`. -/
def parsedyn (name : String) (value : String) : Option (Option DynOut) :=
  parsedynToks name (splitChar ',' value.data)

/-- Result dict of `__parselist`: all three mark keys share one value. -/
inductive ListOut
  | one : MVal → ListOut
  | many : List (Option MVal) → ListOut
deriving DecidableEq, Repr

/-- Model of `CGRread.__parselist`. -/
def parselist (name : String) (value : String) : Option (Option ListOut) :=
  match (splitChar ',' value.data).mapM (decodeLabel name) with
  | none => none
  | some [v] =>
    match v with
    | none => some none
    | some v' => some (some (ListOut.one v'))
  | some l =>
    if l.Nodup then some (some (ListOut.many l)) else some none

/-! ## Dynatom record decoding (`CGRread.__cgr_atom_dat`) -/

/-- Charge slot of a node dict: a scalar or a list of alternatives. -/
inductive ChargeV
  | one : Int → ChargeV
  | many : List Int → ChargeV
deriving DecidableEq, Repr

/-- Value of the `sp_charge` dict key. -/
inductive SPChargeV
  | one : Int → SPChargeV
  | pair : Int → Int → SPChargeV
  | many : List Int → SPChargeV
  | pairs : List (Int × Int) → SPChargeV
deriving DecidableEq, Repr

/-- Element slot of a node dict: a symbol or a substituent list. -/
inductive ElemV
  | one : String → ElemV
  | many : List String → ElemV
deriving DecidableEq, Repr

/-- Isotope slot of a node dict: a value or a list of candidates. -/
inductive IsoV
  | one : Int → IsoV
  | many : List Int → IsoV
deriving DecidableEq, Repr

/-- Value held under the `s_`/`p_` keys of a hybridization/neighbors mark dict. -/
inductive MarkV
  | val : MVal → MarkV
  | list : List (Option MVal) → MarkV
deriving DecidableEq, Repr

/-- Value held under the `sp_` key of a hybridization/neighbors/bond mark dict. -/
inductive SPMarkV
  | val : MVal → SPMarkV
  | pair : Option MVal → Option MVal → SPMarkV
  | list : List (Option MVal) → SPMarkV
  | pairs : List (Option MVal × Option MVal) → SPMarkV
deriving DecidableEq, Repr

/-- Dict fragment for one mark name (`s_X`, `p_X`, `sp_X` keys; `none` = key
absent). -/
structure MarkDict where
  s : Option MarkV := none
  p : Option MarkV := none
  sp : Option SPMarkV := none
deriving DecidableEq, Repr

/-- Dict produced by a `__parsedyn` result (keys `s_X`/`p_X` present exactly
when the decoded side is not `None`). -/
def dynOutDict : DynOut → MarkDict
  | DynOut.single a b =>
    { s := a.map MarkV.val, p := b.map MarkV.val, sp := some (SPMarkV.pair a b) }
  | DynOut.multi l0 l1 =>
    { s := some (MarkV.list l0), p := some (MarkV.list l1),
      sp := some (SPMarkV.pairs (l0.zip l1)) }

/-- Dict produced by a `__parselist` result (`dict.fromkeys`: all three keys). -/
def listOutDict : ListOut → MarkDict
  | ListOut.one v => { s := some (MarkV.val v), p := some (MarkV.val v), sp := some (SPMarkV.val v) }
  | ListOut.many l =>
    { s := some (MarkV.list l), p := some (MarkV.list l), sp := some (SPMarkV.list l) }

/-- Attribute dict accumulated for one atom from its `dynatom` and one-atom CGR
records (the keys `__parse_molecule` can see in `cgr_dat_atom`). -/
structure AtomDat where
  s_charge : Option ChargeV := none
  p_charge : Option ChargeV := none
  sp_charge : Option SPChargeV := none
  p_x : Option Rat := none
  p_y : Option Rat := none
  p_z : Option Rat := none
  dz : Option Int := none
  element : Option ElemV := none
  isotope : Option IsoV := none
  hyb : MarkDict := {}
  neighbors : MarkDict := {}
deriving DecidableEq, Repr

/-- Python `dict.update` on a mark fragment: keys present in the update win. -/
def MarkDict.update (d u : MarkDict) : MarkDict :=
  { s := u.s.elim d.s some, p := u.p.elim d.p some, sp := u.sp.elim d.sp some }

/-- Python `dict.update` on an atom attribute dict. -/
def AtomDat.update (d u : AtomDat) : AtomDat where
  s_charge := u.s_charge.elim d.s_charge some
  p_charge := u.p_charge.elim d.p_charge some
  sp_charge := u.sp_charge.elim d.sp_charge some
  p_x := u.p_x.elim d.p_x some
  p_y := u.p_y.elim d.p_y some
  p_z := u.p_z.elim d.p_z some
  dz := u.dz.elim d.dz some
  element := u.element.elim d.element some
  isotope := u.isotope.elim d.isotope some
  hyb := d.hyb.update u.hyb
  neighbors := d.neighbors.update u.neighbors

/-- Model of an unsigned Python float literal as an exact rational. -/
def parseURat (l : List Char) : Option Rat :=
  match splitChar '.' l with
  | [ip] => (parseNat ip).map (fun n => (n : Rat))
  | [ip, fp] =>
    if ip = [] ∧ fp = [] then none
    else do
      let n ← if ip = [] then some 0 else parseNat ip
      let f ← if fp = [] then some 0 else parseNat fp
      pure ((n : Rat) + (f : Rat) / ((10 : Rat) ^ fp.length))
  | _ => none

/-- Model of Python `float(s)` on the decimal literals the codec emits. -/
def parseRat (l : List Char) : Option Rat :=
  match l with
  | [] => none
  | c :: cs =>
    if c = '-' then (parseURat cs).map Neg.neg
    else if c = '+' then parseURat cs
    else parseURat l

/-- Python slice `l[::2]` (elements at even indices). -/
def everyOther {α : Type} : List α → List α
  | [] => []
  | [x] => [x]
  | x :: _ :: xs => x :: everyOther xs

/-- Worker of `__cgr_atom_dat` on the exploded value string. -/
def cgr_atom_dat_chars : List Char → Int → Option (Option AtomDat)
  | [], _ => none
  | key :: rest, charge =>
    if key = 'c' then
      match (splitChar ',' rest).mapM parseInt with
      | none => none
      | some diff =>
        if diff.length > 1 then
          if diff.headI = 0 then
            let tmp := diff.map (fun x => charge + x)
            if tmp.Nodup then
              some (some { s_charge := some (ChargeV.many tmp), p_charge := some (ChargeV.many tmp),
                           sp_charge := some (SPChargeV.many tmp) })
            else some none
          else if diff.length % 2 = 1 then
            let s := charge :: (everyOther diff.tail).map (fun x => charge + x)
            let p := (everyOther diff).map (fun x => charge + x)
            let tmp := s.zip p
            if tmp.Nodup then
              some (some { s_charge := some (ChargeV.many s), p_charge := some (ChargeV.many p),
                           sp_charge := some (SPChargeV.pairs tmp) })
            else some none
          else some none
        else
          match diff with
          | [d] =>
            if d ≠ 0 then
              some (some { s_charge := some (ChargeV.one charge), p_charge := some (ChargeV.one (charge + d)),
                           sp_charge := some (SPChargeV.pair charge (charge + d)) })
            else some none
          | _ => none
    else if key = 'x' then
      match (splitChar ',' rest).mapM parseRat with
      | some [x, y, z] => some (some { p_x := some x, p_y := some y, p_z := some z })
      | _ => none
    else if key = 'z' then
      match parseInt rest with
      | none => none
      | some d => some (some { dz := some d })
    else some none

/-- Model of `CGRread.__cgr_atom_dat`: decode one `dynatom` record value against
the legacy base charge.  Outer `none` is a raised exception, inner `none` is
Python `None`. -/
def cgr_atom_dat (value : String) (charge : Int) : Option (Option AtomDat) :=
  cgr_atom_dat_chars value.data charge

/-- Decoded value of one non-`dynatom` CGR record (the dicts `__cgr_dat` can
return, tagged by the node/edge keys they update). -/
inductive CgrDatVal
  | bond : MarkDict → CgrDatVal
  | element : ElemV → CgrDatVal
  | hyb : MarkDict → CgrDatVal
  | neighbors : MarkDict → CgrDatVal
  | isotope : IsoV → CgrDatVal
deriving DecidableEq, Repr

/-- Raw value carried by a collected CGR record: `M SED` records carry a
string, `M ALS` substituent records carry a symbol list. -/
inductive RecVal
  | str : String → RecVal
  | strs : List String → RecVal
deriving DecidableEq, Repr

/-- Model of `CGRread.__cgr_dat`, parameterized by the external periodic-table
symbol set (`mendeleyset`).  Outer `none` is a raised exception; inner `none`
is a falsy result that makes the caller drop the record. -/
def cgr_dat (mendeley : List String) (rtype : String) (value : RecVal) :
    Option (Option CgrDatVal) :=
  match rtype, value with
  | "dynbond", RecVal.str v => (parsedyn "bond" v).map (Option.map (fun d => CgrDatVal.bond (dynOutDict d)))
  | "extrabond", RecVal.str v => (parselist "bond" v).map (Option.map (fun d => CgrDatVal.bond (listOutDict d)))
  | "atomlist", RecVal.strs v => some (some (CgrDatVal.element (ElemV.many v)))
  | "atomnotlist", RecVal.strs v =>
    some (some (CgrDatVal.element (ElemV.many (mendeley.filter (fun x => x ∉ v)))))
  | "atomhyb", RecVal.str v => (parselist "hyb" v).map (Option.map (fun d => CgrDatVal.hyb (listOutDict d)))
  | "atomneighbors", RecVal.str v =>
    (parselist "neighbors" v).map (Option.map (fun d => CgrDatVal.neighbors (listOutDict d)))
  | "dynatomhyb", RecVal.str v => (parsedyn "hyb" v).map (Option.map (fun d => CgrDatVal.hyb (dynOutDict d)))
  | "dynatomneighbors", RecVal.str v =>
    (parsedyn "neighbors" v).map (Option.map (fun d => CgrDatVal.neighbors (dynOutDict d)))
  | "isotope", RecVal.str v =>
    match (splitChar ',' v.data).mapM parseInt with
    | none => none
    | some [x] => some (some (CgrDatVal.isotope (IsoV.one x)))
    | some l => some (some (CgrDatVal.isotope (IsoV.many l)))
  | _, _ => some none

/-! ## Encoder side (`CGRwrite.__to_cgr` and `CGRwrite.__charge`) -/

/-- Bond orders occurring as dict values in the source (`None` and `0` both
render as `0` in transition tokens). -/
def bondWays : List (Option Int) := [none, some 0, some 1, some 2, some 3, some 4, some 9]

/-- Python `rep.get(x, x)` with `rep = {None: 0}` followed by `'%s'` rendering. -/
def bondRep (x : Option Int) : List Char :=
  match x with
  | none => ['0']
  | some v => renderInt v

/-- Table rule of `CGRwrite.__to_cgr`: legacy order code, optional dynamic record
value, and optional record type for one `(s_bond, p_bond)` pair. -/
def to_cgr_entry (x y : Option Int) : List Char × Option (List Char) × Option String :=
  if x ≠ y then (['8'], some (bondRep x ++ '>' :: bondRep y), some "dynbond")
  else if x = some 9 then (['8'], some ['s'], some "extrabond")
  else (bondRep x, none, none)

/-- Model of the nested lookup dict built by `CGRwrite.__to_cgr`; `none` is the
`KeyError` on a pair outside the table's domain. -/
def to_cgr (x y : Option Int) : Option (List Char × Option (List Char) × Option String) :=
  if x ∈ bondWays ∧ y ∈ bondWays then some (to_cgr_entry x y) else none

/-- One emitted `dynatom` charge record: its `value` string field. -/
structure ChargeMeta where
  value : List Char
deriving DecidableEq, Repr

/-- Model of `CGRwrite.__charge` restricted to scalar charges (the branch for
`s` not a list): returns the legacy charge column value and the optional
`dynatom` record. -/
def charge_meta_scalar (s p : Int) : Option ChargeMeta :=
  if p ≠ s then some { value := 'c' :: renderSignedInt (p - s) } else none

/-! ## Atom-map resolution (`CGRread._get_reaction`) -/

/-- Replace each zero map number with the next counter value, threading the
shared counter (model of `[j or next(length) for j in maps[i]]`). -/
def assignZeros : List Nat → Nat → List Nat × Nat
  | [], c => ([], c)
  | j :: rest, c =>
    if j = 0 then
      let (r, c') := assignZeros rest (c + 1)
      (c :: r, c')
    else
      let (r, c') := assignZeros rest c
      (j :: r, c')

/-- Gap closure of `_get_reaction`: every map number above the gap `i` is
shifted down by one. -/
def closeGap (i : Nat) (l : List Nat) : List Nat :=
  l.map (fun j => if j < i then j else j - 1)

/-- Model of the atom-map resolution of `CGRread._get_reaction`: the flat map
lists of the substrate and product roles, the shared counter starting one above
the global maximum, zero assignment role by role with a per-role duplicate
check, and (in remap mode) gap closure.  `Except.error` is the raised
`MapError`. -/
def resolveMaps (remap : Bool) (subs prods : List Nat) :
    Except String (List Nat × List Nat) := do
  let c0 := max (prods.foldr max 0) (subs.foldr max 0) + 1
  let (subs1, c1) := if 0 ∈ subs then assignZeros subs c0 else (subs, c0)
  if subs1.Nodup then pure () else throw "MapError"
  let (prods1, c2) := if 0 ∈ prods then assignZeros prods c1 else (prods, c1)
  if prods1.Nodup then pure () else throw "MapError"
  if remap then
    let lose := ((List.range c2).filter
      (fun i => 1 ≤ i ∧ i ∉ prods1 ∧ i ∉ subs1)).reverse
    let subs2 := lose.foldl (fun l i => closeGap i l) subs1
    let prods2 := lose.foldl (fun l i => closeGap i l) prods1
    pure (subs2, prods2)
  else
    pure (subs1, prods1)

/-! ## The dual-state container (`CGRtools/containers/cgr.py`)

Modelled from the spec: the attribute classes `DynAtom`/`DynBond` live in the
absent `CGRtools/attributes` module.  Per the spec's data model, an atom's
element/isotope are shared between the sides, charge (and radical) are
per-side core attributes, stereo marks and the derived classification marks
are kept outside the core reagent/product comparison views. -/

/-- Modelled from the spec: one side's core attribute view of an atom (what
`DynAtom.reagent` / `DynAtom.product` expose to equality tests and to
`decompose`). -/
structure AtomView where
  element : String
  isotope : Option Int
  charge : Int
  radical : Option Int
deriving DecidableEq, Repr

/-- Modelled from the spec: the dual-state atom record. -/
structure DynAtom where
  element : String
  isotope : Option Int := none
  charge : Int := 0
  p_charge : Int := 0
  radical : Option Int := none
  p_radical : Option Int := none
  stereo : Option Int := none
  p_stereo : Option Int := none
  hybridization : Option Nat := none
  p_hybridization : Option Nat := none
  neighbors : Option Nat := none
  p_neighbors : Option Nat := none
deriving DecidableEq, Repr

/-- Reagent-side core view of an atom. -/
def DynAtom.reagent (a : DynAtom) : AtomView :=
  ⟨a.element, a.isotope, a.charge, a.radical⟩

/-- Product-side core view of an atom. -/
def DynAtom.product (a : DynAtom) : AtomView :=
  ⟨a.element, a.isotope, a.p_charge, a.p_radical⟩

/-- Modelled from the spec: one side's view of a bond. -/
structure BondView where
  order : Option Nat
  stereo : Option Int
deriving DecidableEq, Repr

/-- Modelled from the spec: the dual-state bond record. -/
structure DynBond where
  order : Option Nat
  p_order : Option Nat
  stereo : Option Int := none
  p_stereo : Option Int := none
deriving DecidableEq, Repr

/-- Reagent-side view of a bond. -/
def DynBond.reagent (b : DynBond) : BondView := ⟨b.order, b.stereo⟩

/-- Product-side view of a bond. -/
def DynBond.product (b : DynBond) : BondView := ⟨b.p_order, b.p_stereo⟩

/-- The dual-state graph: identifier-keyed atoms, an undirected edge list, and
the manually managed derived-results cache flag. -/
structure CGRContainer where
  nodes : List (Nat × DynAtom)
  edges : List (Nat × Nat × DynBond)
  cacheValid : Bool := true
deriving DecidableEq, Repr

/-- Model of `flush_cache`: invalidate the derived cache. -/
def flush_cache (g : CGRContainer) : CGRContainer :=
  { g with cacheValid := false }

/-- Element of a node, by identifier. -/
def nodeElem (g : CGRContainer) (i : Nat) : Option String :=
  (g.nodes.lookup i).map DynAtom.element

/-- Adjacency view `g._adj[i]`: neighbors of `i` with the connecting bond, in
edge-insertion order. -/
def adjacency (g : CGRContainer) (i : Nat) : List (Nat × DynBond) :=
  g.edges.filterMap (fun e =>
    if e.1 = i then some (e.2.1, e.2.2)
    else if e.2.1 = i then some (e.1, e.2.2) else none)

/-- Python truthiness of a bond-order slot (`None` and `0` are falsy). -/
def orderTruthy (o : Option Nat) : Bool :=
  match o with
  | none => false
  | some k => decide (k ≠ 0)

/-! ### Reaction-center extraction (`CGRContainer.get_center_atoms`) -/

/-- Dynamic test on one atom, as in the node loop of `get_center_atoms`. -/
def atomDynamic (stereo : Bool) (a : DynAtom) : Bool :=
  decide (a.reagent ≠ a.product) || (stereo && decide (a.stereo ≠ a.p_stereo))

/-- Dynamic test on one bond, as in the edge loop of `get_center_atoms`.
Modelled from the spec: the `bond.reagent != bond.product` comparison of the
two side views compares the core attribute (the bond order); the stereo marks
are compared separately, and only when stereo-sensitivity is requested. -/
def bondDynamic (stereo : Bool) (b : DynBond) : Bool :=
  decide (b.reagent.order ≠ b.product.order) || (stereo && decide (b.stereo ≠ b.p_stereo))

/-- Model of `CGRContainer.get_center_atoms` (the Python function accumulates
into a set and returns its elements). -/
def get_center_atoms (g : CGRContainer) (stereo : Bool) : Finset Nat :=
  ((g.nodes.filter (fun p => atomDynamic stereo p.2)).map Prod.fst ++
   (g.edges.filter (fun e => bondDynamic stereo e.2.2)).flatMap (fun e => [e.1, e.2.1])).toFinset

/-! ### Decomposition (`CGRContainer.decompose`) -/

/-- A standalone single-state molecule graph, as built by `decompose`. -/
structure Molecule where
  nodes : List (Nat × AtomView)
  edges : List (Nat × Nat × BondView)
deriving DecidableEq, Repr

/-- Model of `CGRContainer.decompose`: every atom with its side's view, and
only the edges whose order on that side is truthy. -/
def decompose (g : CGRContainer) : Molecule × Molecule :=
  (⟨g.nodes.map (fun p => (p.1, p.2.reagent)),
    (g.edges.filter (fun e => orderTruthy e.2.2.order)).map (fun e => (e.1, e.2.1, e.2.2.reagent))⟩,
   ⟨g.nodes.map (fun p => (p.1, p.2.product)),
    (g.edges.filter (fun e => orderTruthy e.2.2.p_order)).map (fun e => (e.1, e.2.1, e.2.2.product))⟩)

/-! ### Classification reset (`CGRContainer.reset_query_marks`) -/

/-- One step of the hybridization upgrade chain of `reset_query_marks`, for a
truthy incident bond order. -/
def hybStep (h : Nat) (o : Nat) : Nat :=
  if h = 3 ∨ h = 4 then h
  else if o = 4 then 4
  else if o = 3 then 3
  else if o = 2 then (if h = 2 then 3 else 2) else h

/-- Neighbor/hybridization accumulation over one incident bond slot. -/
def markStep (isnth : Bool) (acc : Nat × Nat) (o : Option Nat) : Nat × Nat :=
  match o with
  | none => acc
  | some k =>
    if k = 0 then acc
    else ((if isnth then acc.1 + 1 else acc.1), hybStep acc.2 k)

/-- Per-atom query-mark computation of `reset_query_marks`: scan the incident
bonds once, accumulating both sides. -/
def queryMarks (g : CGRContainer) (i : Nat) : (Nat × Nat) × (Nat × Nat) :=
  (adjacency g i).foldl
    (fun acc jb =>
      let isnth := decide (nodeElem g jb.1 ≠ some "H")
      (markStep isnth acc.1 jb.2.order, markStep isnth acc.2 jb.2.p_order))
    ((0, 1), (0, 1))

/-- Marking pass of `reset_query_marks`: set the four query marks on every
atom. -/
def setQueryMarks (g : CGRContainer) : CGRContainer :=
  { g with nodes := g.nodes.map (fun p =>
      let m := queryMarks g p.1
      (p.1, { p.2 with neighbors := some m.1.1, hybridization := some m.1.2,
                       p_neighbors := some m.2.1, p_hybridization := some m.2.2 })) }

/-- Model of `CGRContainer.reset_query_marks`: first component is the receiver
after the call, second the Python return value (`None` when `copy` is unset). -/
def reset_query_marks (g : CGRContainer) (copy : Bool) : CGRContainer × Option CGRContainer :=
  if copy then (g, some (setQueryMarks g))
  else (flush_cache (setQueryMarks g), none)

/-! ### Hydrogen accounting (`implicify_hydrogens`, `explicify_hydrogens`)

The per-element implicit-hydrogen rule `get_implicit_h` comes from the external
periodic-table collaborator; the embeddings are parameterized by it. -/

/-- Append a value to the list stored at a key, creating the key at the end on
first use (a `defaultdict(list)` in key-insertion order). -/
def assocAppend (l : List (Nat × List Nat)) (k v : Nat) : List (Nat × List Nat) :=
  match l with
  | [] => [(k, [v])]
  | (k', vs) :: rest =>
    if k' = k then (k', vs ++ [v]) :: rest else (k', vs) :: assocAppend rest k v

/-- First pass of `implicify_hydrogens`: partition the explicit hydrogens into
the heavy-atom keyed `explicit` table and the `hydrogens` keep-set of
H-H-bonded hydrogens. -/
def implicifyScan (g : CGRContainer) : List (Nat × List Nat) × Finset Nat :=
  g.nodes.foldl
    (fun acc p =>
      if p.2.element = "H" then
        (adjacency g p.1).foldl
          (fun acc2 mb =>
            if nodeElem g mb.1 ≠ some "H" then (assocAppend acc2.1 mb.1 p.1, acc2.2)
            else (acc2.1, insert mb.1 (insert p.1 acc2.2)))
          acc
      else acc)
    ([], ∅)

/-- Second pass of `implicify_hydrogens`: per heavy atom, either protect all of
its hydrogens (when dropping them would change an exhausted side's implicit
count) or schedule them all for removal. -/
def implicifyDecide (gih : AtomView → List (Option Nat) → Nat) (g : CGRContainer)
    (explicit : List (Nat × List Nat)) (hydro0 : Finset Nat) : Finset Nat × List Nat :=
  explicit.foldl
    (fun acc nh =>
      let n := nh.1
      let h := nh.2
      let adj := adjacency g n
      let s_bonds := (adj.filter (fun xb => decide (xb.1 ∉ h) && orderTruthy xb.2.order)).map
        (fun xb => xb.2.order)
      let p_bonds := (adj.filter (fun xb => decide (xb.1 ∉ h) && orderTruthy xb.2.p_order)).map
        (fun xb => xb.2.p_order)
      match g.nodes.lookup n with
      | none => acc
      | some a =>
        if gih a.reagent s_bonds = 0 ∧
           h.any (fun x => orderTruthy ((adj.lookup x).bind DynBond.order)) then
          (acc.1 ∪ h.toFinset, acc.2)
        else if gih a.product p_bonds = 0 ∧
           h.any (fun x => orderTruthy ((adj.lookup x).bind DynBond.p_order)) then
          (acc.1 ∪ h.toFinset, acc.2)
        else (acc.1, acc.2 ++ h))
    (hydro0, [])

/-- Model of `remove_node`: drop the node and its incident edges. -/
def removeNode (g : CGRContainer) (x : Nat) : CGRContainer :=
  { g with nodes := g.nodes.filter (fun p => decide (p.1 ≠ x)),
           edges := g.edges.filter (fun e => decide (e.1 ≠ x) && decide (e.2.1 ≠ x)) }

/-- Model of `CGRContainer.implicify_hydrogens`: first component is the mutated
receiver (cache flushed), second the removal count returned to the caller.  The
Python method takes no `copy` flag. -/
def implicify_hydrogens (gih : AtomView → List (Option Nat) → Nat) (g : CGRContainer) :
    CGRContainer × Nat :=
  let scan := implicifyScan g
  let dec := implicifyDecide gih g scan.1 scan.2
  let res := dec.2.foldl
    (fun (acc : CGRContainer × Nat) x =>
      if x ∉ dec.1 then (removeNode acc.1 x, acc.2 + 1) else acc)
    (g, 0)
  (flush_cache res.1, res.2)

/-- Model of `atom_implicit_h`: the external rule applied to each side's raw
incident-order list. -/
def atom_implicit_h (gih : AtomView → List (Option Nat) → Nat) (g : CGRContainer)
    (n : Nat) : Nat × Nat :=
  let adj := adjacency g n
  match g.nodes.lookup n with
  | none => (0, 0)
  | some a => (gih a.reagent (adj.map (fun jb => jb.2.order)),
               gih a.product (adj.map (fun jb => jb.2.p_order)))

/-- Python `zip_longest(repeat(1, si), repeat(1, pi))`: per-side bond marks for
the hydrogens to add, the shorter side padded with `None`. -/
def zipLongestOnes (si pi : Nat) : List (Option Nat × Option Nat) :=
  (List.range (max si pi)).map
    (fun k => ((if k < si then some 1 else none), (if k < pi then some 1 else none)))

/-- Largest node identifier in use (`0` for the empty graph). -/
def maxNodeId (g : CGRContainer) : Nat :=
  g.nodes.foldr (fun p m => max p.1 m) 0

/-- Model of `add_bond(n, self.add_atom(H()), s_mark, p_mark)`: a fresh
hydrogen atom bonded to `n` with the two per-side marks. -/
def addHydrogenTo (g : CGRContainer) (n : Nat) (s_mark p_mark : Option Nat) : CGRContainer :=
  let newId := maxNodeId g + 1
  { g with nodes := g.nodes ++ [(newId, { element := "H" })],
           edges := g.edges ++ [(n, newId, { order := s_mark, p_order := p_mark })] }

/-- Model of `CGRContainer.explicify_hydrogens`: first component is the mutated
receiver (cache flushed), second the count of added atoms.  The Python method
takes no `copy` flag. -/
def explicify_hydrogens (gih : AtomView → List (Option Nat) → Nat) (g : CGRContainer) :
    CGRContainer × Nat :=
  let tmp := g.nodes.flatMap (fun p =>
    if p.2.element ≠ "H" then
      let si_pi := atom_implicit_h gih g p.1
      if si_pi.1 ≠ 0 ∨ si_pi.2 ≠ 0 then
        (zipLongestOnes si_pi.1 si_pi.2).map (fun m => (p.1, m.1, m.2))
      else []
    else [])
  let g' := tmp.foldl (fun acc t => addHydrogenTo acc t.1 t.2.1 t.2.2) g
  (flush_cache g', tmp.length)

/-! ## Molecule-block assembly (`CGRread.__parse_molecule`)

The embedding covers the no-`colors` call (an empty `colors` dict makes the
trailing colors block of the Python function a no-op).  The periodic-table
collaborator is the parameter `tbl`, giving each element symbol its isotope
list as `(abundance, mass number)` pairs. -/

/-- One atom line of the legacy molecule block. -/
structure LegacyAtom where
  element : String
  charge : Int
  isotope : Int := 0
  x : Rat := 0
  y : Rat := 0
  z : Rat := 0
  mark : Int := 0
deriving DecidableEq, Repr

/-- One collected CGR extension record. -/
structure CgrRecord where
  rtype : String
  atoms : List Nat
  value : RecVal
deriving DecidableEq, Repr

/-- One parsed molecule block. -/
structure MolInput where
  atoms : List LegacyAtom
  bonds : List (Nat × Nat × Int × Int)
  cgr_dat : List CgrRecord
deriving DecidableEq, Repr

/-- Node attribute dict built by `__parse_molecule` (`none` = key absent). -/
structure PNode where
  mark : Int
  s_x : Rat
  s_y : Rat
  s_z : Rat
  p_x : Option Rat := none
  p_y : Option Rat := none
  p_z : Option Rat := none
  s_charge : Option ChargeV := none
  p_charge : Option ChargeV := none
  sp_charge : Option SPChargeV := none
  element : Option ElemV := none
  isotope : Option IsoV := none
  s_dz : Option Int := none
  p_dz : Option Int := none
  hyb : MarkDict := {}
  neighbors : MarkDict := {}
deriving DecidableEq, Repr

/-- The populated graph returned by `__parse_molecule`. -/
structure ParsedMol where
  nodes : List (Nat × PNode)
  edges : List (Nat × Nat × MarkDict)
deriving DecidableEq, Repr

/-- Atom dict fragment of one non-`dynatom`, one-atom CGR record. -/
def cgrDatAtomFragment : CgrDatVal → AtomDat
  | CgrDatVal.element e => { element := some e }
  | CgrDatVal.isotope i => { isotope := some i }
  | CgrDatVal.hyb d => { hyb := d }
  | CgrDatVal.neighbors d => { neighbors := d }
  | CgrDatVal.bond _ => {}

/-- Python `cgr_dat_atom.setdefault(a, {}).update(frag)` on an insertion-ordered
dict. -/
def assocUpdateAtom : List (Nat × AtomDat) → Nat → AtomDat → List (Nat × AtomDat)
  | [], a, frag => [(a, AtomDat.update {} frag)]
  | (k, d) :: rest, a, frag =>
    if k = a then (k, d.update frag) :: rest else (k, d) :: assocUpdateAtom rest a frag

/-- Python `cgr_dat_bond.setdefault(a1, {})[a2] = val` on a pair-keyed dict. -/
def assocSetBond : List ((Nat × Nat) × MarkDict) → Nat × Nat → MarkDict →
    List ((Nat × Nat) × MarkDict)
  | [], ab, d => [(ab, d)]
  | (k, d') :: rest, ab, d =>
    if k = ab then (k, d) :: rest else (k, d') :: assocSetBond rest ab d

/-- Legacy base charge `molecule['atoms'][a - 1]['charge']` with Python's
negative indexing for `a = 0`. -/
def molAtomCharge (atoms : List LegacyAtom) (a : Nat) : Option Int :=
  if a = 0 then atoms.getLast?.map LegacyAtom.charge
  else (atoms.get? (a - 1)).map LegacyAtom.charge

/-- First loop of `__parse_molecule`: distribute the CGR records into the
atom-keyed and bond-keyed pending tables. -/
def buildCgrDat (mendeley : List String) (mol : MolInput) :
    Option (List (Nat × AtomDat) × List ((Nat × Nat) × MarkDict)) :=
  mol.cgr_dat.foldlM
    (fun acc k =>
      if k.rtype = "dynatom" then
        match k.value with
        | RecVal.str v =>
          match k.atoms.head? with
          | none => none
          | some a =>
            match molAtomCharge mol.atoms a with
            | none => none
            | some ch =>
              match cgr_atom_dat v ch with
              | some (some frag) => some (assocUpdateAtom acc.1 a frag, acc.2)
              | _ => none
        | _ => none
      else
        match cgr_dat mendeley k.rtype k.value with
        | none => none
        | some none => some acc
        | some (some (CgrDatVal.bond d)) =>
          match k.atoms with
          | [a1, a2] => some (acc.1, assocSetBond (assocSetBond acc.2 (a1, a2) d) (a2, a1) d)
          | _ => none
        | some (some val) =>
          match k.atoms.head? with
          | none => none
          | some a => some (assocUpdateAtom acc.1 a (cgrDatAtomFragment val), acc.2))
    ([], [])

/-- Model of `g.add_node(atom_map, mark=.., s_x=.., s_y=.., s_z=.., **atom_dat)`:
overwrite the passed keys on the (possibly fresh) node dict. -/
def applyAtomDat (nd : PNode) (l : LegacyAtom) (dat : AtomDat) : PNode :=
  { nd with
    mark := l.mark, s_x := l.x, s_y := l.y, s_z := l.z,
    p_x := dat.p_x.elim nd.p_x some,
    p_y := dat.p_y.elim nd.p_y some,
    p_z := dat.p_z.elim nd.p_z some,
    s_charge := dat.s_charge.elim nd.s_charge some,
    p_charge := dat.p_charge.elim nd.p_charge some,
    sp_charge := dat.sp_charge.elim nd.sp_charge some,
    element := dat.element.elim nd.element some,
    isotope := dat.isotope.elim nd.isotope some,
    hyb := nd.hyb.update dat.hyb,
    neighbors := nd.neighbors.update dat.neighbors }

/-- An untouched node dict holding only the always-passed keys. -/
def blankNode (l : LegacyAtom) : PNode :=
  { mark := l.mark, s_x := l.x, s_y := l.y, s_z := l.z }

/-- Node insertion/update on the insertion-ordered node table. -/
def nodeAdd (nodes : List (Nat × PNode)) (i : Nat) (l : LegacyAtom) (dat : AtomDat) :
    List (Nat × PNode) :=
  match nodes with
  | [] => [(i, applyAtomDat (blankNode l) l dat)]
  | (k, nd) :: rest =>
    if k = i then (k, applyAtomDat nd l dat) :: rest else (k, nd) :: nodeAdd rest i l dat

/-- In-place update of one node dict, a no-op when the node is absent. -/
def nodeModify (nodes : List (Nat × PNode)) (i : Nat) (f : PNode → PNode) :
    List (Nat × PNode) :=
  nodes.map (fun p => if p.1 = i then (p.1, f p.2) else p)

/-- Lexicographic maximum of `(abundance, mass)` pairs (Python `max` on
tuples; `none` on the empty list is the raised `ValueError`). -/
def lexMax : List (Rat × Int) → Option (Rat × Int)
  | [] => none
  | x :: xs =>
    some (xs.foldl
      (fun m y => if m.1 < y.1 ∨ (m.1 = y.1 ∧ m.2 < y.2) then y else m) x)

/-- State threaded through the atom loop of `__parse_molecule`. -/
structure AtomLoopState where
  nodes : List (Nat × PNode)
  atom_dz : List (Nat × Int)
  mdl_s : Bool := true
  mdl_p : Bool := true
deriving DecidableEq, Repr

/-- Record-dict completion of the atom loop: default static charges when the
record set no `sp_charge`, and derive the product coordinates (shift added to
legacy, or legacy copied). -/
def mergedAtomDat (l : LegacyAtom) (dat0 : AtomDat) : AtomDat :=
  let dat1 :=
    if dat0.sp_charge = none then
      { dat0 with s_charge := some (ChargeV.one l.charge),
                  p_charge := some (ChargeV.one l.charge),
                  sp_charge := some (SPChargeV.one l.charge) }
    else dat0
  if dat1.p_x ≠ none then
    { dat1 with p_x := dat1.p_x.map (fun v => v + l.x),
                p_y := dat1.p_y.map (fun v => v + l.y),
                p_z := dat1.p_z.map (fun v => v + l.z) }
  else { dat1 with p_x := some l.x, p_y := some l.y, p_z := some l.z }

/-- The product-z invalidation test `atom_dat['p_z'] < .0001` (the threshold
`.0001` is the exact rational 1/10000). -/
def pzBelow (dat : AtomDat) : Bool :=
  match dat.p_z with
  | some v => decide (v < mkRat 1 10000)
  | none => false

/-- Dict fragment passed by `add_node` for an atom without pending records. -/
def plainAtomDat (l : LegacyAtom) : AtomDat :=
  { s_charge := some (ChargeV.one l.charge), p_charge := some (ChargeV.one l.charge),
    sp_charge := some (SPChargeV.one l.charge),
    p_x := some l.x, p_y := some l.y, p_z := some l.z }

/-- Atom-loop phase 1: node insertion (with the merged record dict when one is
pending), deferred depth-mark extraction, and the product-stereo check. -/
def atomPhase1 (st : AtomLoopState) (atom_map : Nat) (l : LegacyAtom)
    (dat? : Option AtomDat) : AtomLoopState :=
  match dat? with
  | some dat0 =>
    let dat2 := mergedAtomDat l dat0
    let dat3 := { dat2 with dz := none }
    let atom_dz' := match dat2.dz with
      | some d => st.atom_dz ++ [(atom_map, d)]
      | none => st.atom_dz
    { st with nodes := nodeAdd st.nodes atom_map l dat3,
              atom_dz := atom_dz',
              mdl_p := if pzBelow dat3 then false else st.mdl_p }
  | none => { st with nodes := nodeAdd st.nodes atom_map l (plainAtomDat l) }

/-- Atom-loop phase 2: seed the element symbol from the legacy field when no
record supplied one and the legacy symbol is not a wildcard. -/
def atomPhase2 (st : AtomLoopState) (atom_map : Nat) (l : LegacyAtom) : AtomLoopState :=
  if (st.nodes.lookup atom_map).elim false (fun nd => nd.element = none) ∧
     l.element ≠ "A" ∧ l.element ≠ "*" then
    let ns := nodeModify st.nodes atom_map (fun nd => { nd with element := some (ElemV.one l.element) })
    { st with nodes := ns }
  else st

/-- Atom-loop phase 3: interpret a nonzero legacy isotope field as a delta on
the element's most-abundant mass number. -/
def atomPhase3 (tbl : String → List (Rat × Int)) (st : AtomLoopState) (atom_map : Nat)
    (l : LegacyAtom) : Option AtomLoopState :=
  if (st.nodes.lookup atom_map).elim false (fun nd => nd.isotope = none) ∧ l.isotope ≠ 0 then
    match lexMax (tbl l.element) with
    | none => none
    | some m =>
      let ns := nodeModify st.nodes atom_map
        (fun nd => { nd with isotope := some (IsoV.one (m.2 + l.isotope)) })
      some { st with nodes := ns }
  else some st

/-- Atom-loop phase 4: a nonzero legacy z-coordinate invalidates reagent-side
stereo inference for the whole block. -/
def atomPhase4 (st : AtomLoopState) (l : LegacyAtom) : AtomLoopState :=
  if l.z ≠ 0 then { st with mdl_s := false } else st

/-- Whether one atom line trips the product-stereo invalidation: it must carry
an atom-keyed record dict and its merged derived product-z must fall below the
threshold. -/
def pzTrigger (l : LegacyAtom) (dat? : Option AtomDat) : Bool :=
  match dat? with
  | some dat0 => pzBelow (mergedAtomDat l dat0)
  | none => false

/-- No node of the table carries a wedge depth mark on either side. -/
def DzFree (nodes : List (Nat × PNode)) : Prop :=
  ∀ p ∈ nodes, p.2.s_dz = none ∧ p.2.p_dz = none

/-- One iteration of the atom loop of `__parse_molecule` for the `k`-th atom
line `l` (with its pending record dict, when any). -/
def atomStep (tbl : String → List (Rat × Int)) (st : AtomLoopState) (atom_map : Nat)
    (l : LegacyAtom) (dat? : Option AtomDat) : Option AtomLoopState :=
  (atomPhase3 tbl (atomPhase2 (atomPhase1 st atom_map l dat?) atom_map l) atom_map l).map
    (fun st' => atomPhase4 st' l)

/-- The atom loop of `__parse_molecule` over an enumerated atom-line list. -/
def atomEntriesLoop (tbl : String → List (Rat × Int)) (mapping : Nat → Nat)
    (cgr_dat_atom : List (Nat × AtomDat)) :
    List (Nat × LegacyAtom) → AtomLoopState → Option AtomLoopState
  | [], st => some st
  | kl :: rest, st =>
    match atomStep tbl st (mapping kl.1) kl.2 (cgr_dat_atom.lookup kl.1) with
    | none => none
    | some st' => atomEntriesLoop tbl mapping cgr_dat_atom rest st'

/-- The atom loop of `__parse_molecule` over the enumerated atom lines. -/
def atomLoop (tbl : String → List (Rat × Int)) (mapping : Nat → Nat)
    (cgr_dat_atom : List (Nat × AtomDat)) (atoms : List LegacyAtom) :
    Option AtomLoopState :=
  atomEntriesLoop tbl mapping cgr_dat_atom (List.enumFrom 1 atoms)
    ({ nodes := [], atom_dz := [] } : AtomLoopState)

/-- Edge insertion of `g.add_edge`: merge into an existing edge dict on the same
unordered pair, else append. -/
def edgeAdd (edges : List (Nat × Nat × MarkDict)) (a b : Nat) (d : MarkDict) :
    List (Nat × Nat × MarkDict) :=
  match edges with
  | [] => [(a, b, d)]
  | (x, y, d') :: rest =>
    if (x = a ∧ y = b) ∨ (x = b ∧ y = a) then (x, y, d'.update d) :: rest
    else (x, y, d') :: edgeAdd rest a b d

/-- Legacy bond dict `s_bond = p_bond = sp_bond = m`. -/
def legacyBondDict (m : Int) : MarkDict :=
  { s := some (MarkV.val (MVal.int m)), p := some (MarkV.val (MVal.int m)),
    sp := some (SPMarkV.val (MVal.int m)) }

/-- One iteration of the bond loop of `__parse_molecule`: insert the bond
(CGR-overridden or legacy) and seed the wedge depth marks on the still-valid
sides. -/
def bondStep (mapping : Nat → Nat) (cgr_dat_bond : List ((Nat × Nat) × MarkDict))
    (st : AtomLoopState) (acc : List (Nat × PNode) × List (Nat × Nat × MarkDict))
    (klms : Nat × Nat × Int × Int) : List (Nat × PNode) × List (Nat × Nat × MarkDict) :=
  let k := klms.1
  let l := klms.2.1
  let m := klms.2.2.1
  let s := klms.2.2.2
  let edges' :=
    match cgr_dat_bond.lookup (k, l) with
    | some d => edgeAdd acc.2 (mapping k) (mapping l) d
    | none => edgeAdd acc.2 (mapping k) (mapping l) (legacyBondDict m)
  if s = 1 ∨ s = 6 then
    let s_mark : Int := if s = 1 then 1 else -1
    let atom_map := mapping l
    let nodes' :=
      if st.mdl_s then
        nodeModify acc.1 atom_map (fun nd => { nd with s_dz := some s_mark })
      else acc.1
    let nodes'' :=
      if st.mdl_p ∧ (st.atom_dz.lookup atom_map) = none then
        nodeModify nodes' atom_map (fun nd => { nd with p_dz := some s_mark })
      else nodes'
    (nodes'', edges')
  else (acc.1, edges')

/-- Bond loop of `__parse_molecule`. -/
def bondLoop (mapping : Nat → Nat) (cgr_dat_bond : List ((Nat × Nat) × MarkDict))
    (st : AtomLoopState) (bonds : List (Nat × Nat × Int × Int)) :
    List (Nat × PNode) × List (Nat × Nat × MarkDict) :=
  bonds.foldl (bondStep mapping cgr_dat_bond st) (st.nodes, [])

/-- Deferred depth-mark application at the end of `__parse_molecule`. -/
def dzFinal (atom_dz : List (Nat × Int)) (nodes : List (Nat × PNode)) :
    List (Nat × PNode) :=
  atom_dz.foldl
    (fun ns ad =>
      if ad.2 ≠ 0 then nodeModify ns ad.1 (fun nd => { nd with p_dz := some ad.2 }) else ns)
    nodes

/-- Model of `CGRread.__parse_molecule` (without a `colors` argument): pending
record distribution, atom loop, bond loop, and the deferred depth-mark
application.  `none` is a raised exception. -/
def parse_molecule (tbl : String → List (Rat × Int)) (mendeley : List String)
    (mapping : Nat → Nat) (mol : MolInput) : Option ParsedMol := do
  let (cgr_dat_atom, cgr_dat_bond) ← buildCgrDat mendeley mol
  let st ← atomLoop tbl mapping cgr_dat_atom mol.atoms
  let (nodes1, edges) := bondLoop mapping cgr_dat_bond st mol.bonds
  let nodes2 := if st.mdl_p then dzFinal st.atom_dz nodes1 else nodes1
  pure { nodes := nodes2, edges := edges }

/-! ## Concrete fixtures used by witnesses and counterexamples -/

/-- A small concrete isotope table standing in for the external periodic-table
collaborator in concrete evaluations. -/
def tblC : String → List (Rat × Int)
  | "C" => [(mkRat 989 1000, 12), (mkRat 11 1000, 13)]
  | "N" => [(mkRat 996 1000, 14), (mkRat 4 1000, 15)]
  | "O" => [(mkRat 998 1000, 16), (mkRat 1 1000, 17), (mkRat 1 1000, 18)]
  | _ => []

/-- Two flat atoms, no CGR records, one wedge-coded bond. -/
def molWedge : MolInput :=
  { atoms := [{ element := "C", charge := 0 }, { element := "O", charge := 0 }],
    bonds := [(1, 2, 1, 1)], cgr_dat := [] }

/-- The same block with a charge `dynatom` record on atom 1 (so atom 1 carries
an atom-keyed record and its derived product-z of 0 is below the threshold). -/
def molWedgeRec : MolInput :=
  { atoms := [{ element := "C", charge := 0 }, { element := "O", charge := 0 }],
    bonds := [(1, 2, 1, 1)],
    cgr_dat := [{ rtype := "dynatom", atoms := [1], value := RecVal.str "c+1" }] }

/-- One nitrogen atom with legacy isotope field 1. -/
def molIso : MolInput :=
  { atoms := [{ element := "N", charge := 0, isotope := 1 }], bonds := [], cgr_dat := [] }

/-- A double bond annotated by a `dynbond` record all of whose tokens have
identical sides. -/
def molNoopDyn : MolInput :=
  { atoms := [{ element := "C", charge := 0 }, { element := "O", charge := 0 }],
    bonds := [(1, 2, 2, 0)],
    cgr_dat := [{ rtype := "dynbond", atoms := [1, 2], value := RecVal.str "1>1" }] }

/-- The same block with the no-op record removed. -/
def molNoopDynDropped : MolInput :=
  { atoms := [{ element := "C", charge := 0 }, { element := "O", charge := 0 }],
    bonds := [(1, 2, 2, 0)], cgr_dat := [] }

/-- The atom-keyed record table that `buildCgrDat` produces for
`molWedgeRec`. -/
def cdaWedgeRec : List (Nat × AtomDat) :=
  [(1, { s_charge := some (ChargeV.one 0), p_charge := some (ChargeV.one 1),
         sp_charge := some (SPChargeV.pair 0 1) })]

/-- The atom-loop state reached on `molWedgeRec`. -/
def stWedgeRec : AtomLoopState :=
  (atomLoop tblC id cdaWedgeRec molWedgeRec.atoms).getD { nodes := [], atom_dz := [] }

/-- A lone static oxygen atom in a dual-state container. -/
def gOxygen : CGRContainer :=
  { nodes := [(1, { element := "O" })], edges := [] }

/-- A valence oracle granting oxygen two implicit hydrogens. -/
def gihC (a : AtomView) (_ : List (Option Nat)) : Nat :=
  if a.element = "O" then 2 else 0

/-- A carbon atom with two double bonds (orders `[2, 2]` on both sides). -/
def gTwoDouble : CGRContainer :=
  { nodes := [(1, { element := "C" }), (2, { element := "O" }), (3, { element := "O" })],
    edges := [(1, 2, { order := some 2, p_order := some 2 }),
              (1, 3, { order := some 2, p_order := some 2 })] }

/-- A fully static two-atom graph (no dynamic attribute anywhere). -/
def gStatic : CGRContainer :=
  { nodes := [(1, { element := "C" }), (2, { element := "O" })],
    edges := [(1, 2, { order := some 1, p_order := some 1 })] }

/-! ## Helper lemmas: decimal rendering and parsing round-trip -/

theorem charDigit_digitChar (d : Nat) (h : d < 10) : charDigit (digitChar d) = some d := by
  interval_cases d <;> rfl

theorem digitChar_ne_comma (d : Nat) : digitChar d ≠ ',' := by
  unfold digitChar
  repeat' split
  all_goals decide

theorem natDigitsRev_no_comma (fuel n : Nat) : ',' ∉ natDigitsRev fuel n := by
  induction fuel generalizing n with
  | zero => simp [natDigitsRev]
  | succ f ih =>
    by_cases h : n = 0
    · simp [natDigitsRev, h]
    · simp only [natDigitsRev, if_neg h, List.mem_cons, not_or]
      exact ⟨fun hc => digitChar_ne_comma (n % 10) hc.symm, ih (n / 10)⟩

theorem renderNat_no_comma (n : Nat) : ',' ∉ renderNat n := by
  unfold renderNat
  by_cases h : n = 0
  · simp [h]
  · simpa [h] using natDigitsRev_no_comma n n

theorem renderSignedInt_no_comma (d : Int) : ',' ∉ renderSignedInt d := by
  unfold renderSignedInt
  split <;> simp [renderNat_no_comma d.natAbs]

theorem splitCharAux_no_sep (c : Char) (l : List Char) (acc : List Char) (h : c ∉ l) :
    splitCharAux c l acc = [acc.reverse ++ l] := by
  induction l generalizing acc with
  | nil => simp [splitCharAux]
  | cons x xs ih =>
    have hx : ¬ x = c := fun hxc => h (hxc ▸ List.mem_cons_self x xs)
    have hxs : c ∉ xs := fun hm => h (List.mem_cons_of_mem x hm)
    simp [splitCharAux, hx, ih _ hxs]

theorem splitChar_no_sep (c : Char) (l : List Char) (h : c ∉ l) : splitChar c l = [l] := by
  simpa using splitCharAux_no_sep c l [] h

theorem digitsAcc_append (l1 l2 : List Char) (acc : Nat) :
    digitsAcc (l1 ++ l2) acc = (digitsAcc l1 acc).bind (fun a => digitsAcc l2 a) := by
  induction l1 generalizing acc with
  | nil => simp [digitsAcc]
  | cons x xs ih =>
    simp only [List.cons_append, digitsAcc]
    cases charDigit x with
    | none => rfl
    | some d => simp [ih]

theorem digitsAcc_natDigitsRev (fuel : Nat) :
    ∀ n acc, n ≤ fuel →
      digitsAcc ((natDigitsRev fuel n).reverse) acc =
        some (acc * 10 ^ (natDigitsRev fuel n).length + n) := by
  induction fuel with
  | zero =>
    intro n acc h
    have h0 : n = 0 := Nat.le_zero.mp h
    simp [natDigitsRev, digitsAcc, h0]
  | succ f ih =>
    intro n acc h
    by_cases h0 : n = 0
    · simp [natDigitsRev, digitsAcc, h0]
    · have hdiv : n / 10 ≤ f := by omega
      have hmod : n % 10 < 10 := Nat.mod_lt n (by norm_num)
      simp only [natDigitsRev, if_neg h0, List.reverse_cons]
      rw [digitsAcc_append, ih (n / 10) acc hdiv]
      simp only [digitsAcc, charDigit_digitChar (n % 10) hmod, List.length_cons]
      rw [pow_succ, ← mul_assoc]
      simp only [Option.some_bind]
      congr 1
      generalize acc * 10 ^ (natDigitsRev f (n / 10)).length = A
      omega

theorem parseNat_renderNat (n : Nat) : parseNat (renderNat n) = some n := by
  by_cases h : n = 0
  · subst h; rfl
  · have hfuel : natDigitsRev n n ≠ [] := by
      obtain ⟨m, rfl⟩ := Nat.exists_eq_succ_of_ne_zero h
      simp [natDigitsRev]
    unfold renderNat
    rw [if_neg h]
    have key := digitsAcc_natDigitsRev n n 0 le_rfl
    rcases hrev : (natDigitsRev n n).reverse with _ | ⟨c, cs⟩
    · exact absurd (by simpa using hrev) hfuel
    · rw [hrev] at key
      simp [parseNat, key]

theorem parseInt_renderSignedInt (d : Int) : parseInt (renderSignedInt d) = some d := by
  unfold renderSignedInt
  by_cases h : d < 0
  · rw [if_pos h]
    have hstep : parseInt ('-' :: renderNat d.natAbs) =
        Option.map (fun n : Nat => -(n : Int)) (parseNat (renderNat d.natAbs)) := rfl
    rw [hstep, parseNat_renderNat, Option.map_some']
    rw [Int.ofNat_natAbs_of_nonpos (le_of_lt h)]
    simp
  · rw [if_neg h]
    have hstep : parseInt ('+' :: renderNat d.natAbs) =
        Option.map (fun n : Nat => (n : Int)) (parseNat (renderNat d.natAbs)) := rfl
    rw [hstep, parseNat_renderNat, Option.map_some']
    rw [Int.natAbs_of_nonneg (not_lt.mp h)]

/-! ## C1: atom-map resolution -/

/-- Claim C1 counterexample: with reactant maps `[1,2,0]` and product maps
`[0,1,2]`, the resolver assigns the reactant zero to 3 but the product zero to
4 — the unmapped-atom counter is shared across the whole reaction and keeps
counting — so the claimed `(3, 3)` assignment is false. -/
theorem C1_counterexample :
    resolveMaps false [1, 2, 0] [0, 1, 2] = Except.ok ([1, 2, 3], [4, 1, 2]) ∧
    resolveMaps false [1, 2, 0] [0, 1, 2] ≠ Except.ok ([1, 2, 3], [3, 1, 2]) := by
  constructor
  · rfl
  · rw [show resolveMaps false [1, 2, 0] [0, 1, 2] = Except.ok ([1, 2, 3], [4, 1, 2]) from rfl]
    simp

/-- Claim C1 amended: the reactant zero entry is assigned 3 (next above the
global maximum 2); the product zero entry is assigned 4, because the counter is
shared across the reaction and continues after the reactants; and a reactant
role with duplicate map numbers `[1,1]` raises the fatal `MapError`. -/
theorem C1_amended :
    resolveMaps false [1, 2, 0] [0, 1, 2] = Except.ok ([1, 2, 3], [4, 1, 2]) ∧
    resolveMaps false [1, 1] [2] = Except.error "MapError" := by
  constructor <;> rfl

/-! ## C3: dynamic-bond round trip -/

/-- Claim C3: a bond with reagent order single and product order double is
encoded by the bond-order-pair table as a `dynbond` record with transition
value `1>2`, and decoding `1>2` with the dynamic-value parser returns exactly
reagent order 1 and product order 2. -/
theorem C3_bond_roundtrip :
    to_cgr (some 1) (some 2) = some (['8'], some "1>2".data, some "dynbond") ∧
    parsedyn "bond" "1>2" =
      some (some (DynOut.single (some (MVal.int 1)) (some (MVal.int 2)))) := by
  constructor <;> rfl

/-! ## C7: charge delta grammar -/

/-- Claim C7: for any base charge, an atom whose scalar reagent charge differs
from its scalar product charge is encoded as a `dynatom` record whose value is
`c` followed by the signed delta `product - reagent`, and decoding a charge
record with one nonzero numeric delta against a base charge yields product
charge = base + delta; in particular reagent 0 / product +1 encodes to `c+1`
and `c+1` against base 0 decodes to product charge 1. -/
theorem C7_charge_delta (charge s p d : Int) (hsp : s ≠ p) (hd : d ≠ 0) :
    charge_meta_scalar s p = some { value := 'c' :: renderSignedInt (p - s) } ∧
    cgr_atom_dat_chars ('c' :: renderSignedInt d) charge =
      some (some { s_charge := some (ChargeV.one charge),
                   p_charge := some (ChargeV.one (charge + d)),
                   sp_charge := some (SPChargeV.pair charge (charge + d)) }) ∧
    charge_meta_scalar 0 1 = some { value := "c+1".data } ∧
    cgr_atom_dat "c+1" 0 =
      some (some { s_charge := some (ChargeV.one 0), p_charge := some (ChargeV.one 1),
                   sp_charge := some (SPChargeV.pair 0 1) }) := by
  refine ⟨?_, ?_, rfl, rfl⟩
  · unfold charge_meta_scalar
    rw [if_pos (Ne.symm hsp)]
  · have hsplit : splitChar ',' (renderSignedInt d) = [renderSignedInt d] :=
      splitChar_no_sep ',' (renderSignedInt d) (renderSignedInt_no_comma d)
    have hmapM : (splitChar ',' (renderSignedInt d)).mapM parseInt = some [d] := by
      rw [hsplit]
      simp [List.mapM, List.mapM.loop, parseInt_renderSignedInt d]
    simp only [cgr_atom_dat_chars, if_pos rfl, hmapM]
    simp [hd]

/-- Witness for C7 at base charge 0, reagent 0, product 1, delta 1. -/
theorem C7_charge_delta_witness :
    (0 : Int) ≠ 1 ∧ (1 : Int) ≠ 0 ∧
    cgr_atom_dat_chars ('c' :: renderSignedInt 1) 0 =
      some (some { s_charge := some (ChargeV.one 0), p_charge := some (ChargeV.one 1),
                   sp_charge := some (SPChargeV.pair 0 1) }) :=
  ⟨by decide, by decide,
    by simpa using (C7_charge_delta 0 0 1 1 (by decide) (by decide)).2.1⟩

/-! ## C10: no-op dynamic tokens are dropped -/

/-- If every token of the list splits successfully (`a>b` shape) into two
identical sides, the split phase succeeds and the subsequent equal-sides
filter drops every resulting pair. -/
theorem mapM_splitTrans_noop (toks : List (List Char))
    (h : ∀ x ∈ toks, (splitTrans x).elim false (fun q => decide (q.1 = q.2)) = true) :
    ∃ pairs, toks.mapM splitTrans = some pairs ∧
      pairs.filter (fun q => decide (q.1 ≠ q.2)) = [] := by
  induction toks with
  | nil => exact ⟨[], rfl, rfl⟩
  | cons a as ih =>
    have ha := h a (List.mem_cons_self a as)
    cases hs : splitTrans a with
    | none => rw [hs] at ha; simp at ha
    | some q =>
      rw [hs] at ha
      simp at ha
      obtain ⟨pairs, hp, hf⟩ := ih (fun x hx => h x (List.mem_cons_of_mem a hx))
      refine ⟨q :: pairs, ?_, ?_⟩
      · simp only [List.mapM_cons, hs, hp]
        rfl
      · rw [List.filter_eq_nil_iff] at hf ⊢
        intro p hp'
        rcases List.mem_cons.mp hp' with h1 | h2
        · subst h1
          simp [ha]
        · exact hf p h2

/-- Claim C10: dynamic-transition decoding drops every well-formed token whose
two sides coincide — interpreting a pair list is unchanged by pre-dropping the
equal-sided pairs — so a record all of whose tokens split into identical sides
decodes to Python `None`, and such a record is silently discarded by the
assembler: the block parses exactly as if the record were absent. -/
theorem C10_noop_dyn_dropped (name value : String)
    (h : ∀ x ∈ splitChar ',' value.data,
      (splitTrans x).elim false (fun q => decide (q.1 = q.2)) = true) :
    (∀ pairs : List (List Char × List Char),
      parsedynPairs name pairs =
        parsedynPairs name (pairs.filter (fun q => decide (q.1 ≠ q.2)))) ∧
    parsedyn name value = some none ∧
    parse_molecule tblC [] id molNoopDyn = parse_molecule tblC [] id molNoopDynDropped := by
  refine ⟨?_, ?_, rfl⟩
  · intro pairs
    unfold parsedynPairs
    rw [List.filter_filter]
    simp
  · obtain ⟨pairs, hp, hf⟩ := mapM_splitTrans_noop (splitChar ',' value.data) h
    unfold parsedyn parsedynToks
    rw [hp]
    unfold parsedynPairs
    simp only [hf]
    rfl

/-- Witness for C10 on the `bond` transition value `1>1`. -/
theorem C10_noop_dyn_dropped_witness : parsedyn "bond" "1>1" = some none :=
  (C10_noop_dyn_dropped "bond" "1>1" (by decide)).2.1

/-! ## C2: the copy-flag convention -/

/-- Claim C2 counterexample: `explicify_hydrogens` (like `implicify_hydrogens`)
takes no `copy` flag — its only call form mutates the receiver (here: adds two
hydrogens to a lone oxygen) and invalidates the cache, so no invocation can
operate on a clone and leave the receiver untouched as the claim asserts for
every mutating derived algorithm. -/
theorem C2_counterexample :
    (explicify_hydrogens gihC gOxygen).1 ≠ gOxygen ∧
    (explicify_hydrogens gihC gOxygen).1.cacheValid = false ∧
    gOxygen.cacheValid = true ∧
    (implicify_hydrogens gihC gOxygen).1.cacheValid = false := by
  exact ⟨by decide, rfl, rfl, rfl⟩

/-- Claim C2 amended: only the classification reset accepts the `copy` flag —
set, it leaves the receiver (cache included) untouched and returns the marked
clone; unset, it marks in place and invalidates the cache and returns `None`.
The hydrogen algorithms take no flag: every call mutates in place and
invalidates the cache before returning its count. -/
theorem C2_copy_flag (g : CGRContainer) (gih : AtomView → List (Option Nat) → Nat) :
    reset_query_marks g true = (g, some (setQueryMarks g)) ∧
    reset_query_marks g false = (flush_cache (setQueryMarks g), none) ∧
    (reset_query_marks g false).1.cacheValid = false ∧
    (implicify_hydrogens gih g).1.cacheValid = false ∧
    (explicify_hydrogens gih g).1.cacheValid = false :=
  ⟨rfl, rfl, rfl, rfl, rfl⟩

/-! ## C4: reaction-center extraction -/

/-- Claim C4: an identifier is in the extracted center exactly when its atom is
dynamic (core views differ, or stereo marks differ when stereo-sensitivity is
requested) or it is an endpoint of a dynamic bond; and when every atom and
bond is fully static the center is empty. -/
theorem C4_center (g : CGRContainer) (stereo : Bool) :
    (∀ n, n ∈ get_center_atoms g stereo ↔
       (∃ a, (n, a) ∈ g.nodes ∧ atomDynamic stereo a = true) ∨
       (∃ e ∈ g.edges, (n = e.1 ∨ n = e.2.1) ∧ bondDynamic stereo e.2.2 = true)) ∧
    ((∀ p ∈ g.nodes, p.2.reagent = p.2.product ∧ p.2.stereo = p.2.p_stereo) →
     (∀ e ∈ g.edges, e.2.2.reagent = e.2.2.product ∧ e.2.2.stereo = e.2.2.p_stereo) →
     get_center_atoms g stereo = ∅) := by
  constructor
  · intro n
    unfold get_center_atoms
    simp only [List.mem_toFinset, List.mem_append, List.mem_map, List.mem_filter,
      List.mem_flatMap, List.mem_cons, List.not_mem_nil, or_false]
    constructor
    · rintro (⟨⟨i, a⟩, ⟨hm, hd⟩, rfl⟩ | ⟨e, ⟨hm, hd⟩, hn⟩)
      · exact Or.inl ⟨a, hm, hd⟩
      · exact Or.inr ⟨e, hm, hn, hd⟩
    · rintro (⟨a, hm, hd⟩ | ⟨e, hm, hn, hd⟩)
      · exact Or.inl ⟨(n, a), ⟨hm, hd⟩, rfl⟩
      · exact Or.inr ⟨e, ⟨hm, hd⟩, hn⟩
  · intro ha hb
    unfold get_center_atoms
    have h1 : g.nodes.filter (fun p => atomDynamic stereo p.2) = [] := by
      rw [List.filter_eq_nil_iff]
      intro p hp
      obtain ⟨e1, e2⟩ := ha p hp
      simp [atomDynamic, e1, e2]
    have h2 : g.edges.filter (fun e => bondDynamic stereo e.2.2) = [] := by
      rw [List.filter_eq_nil_iff]
      intro e he
      obtain ⟨e1, e2⟩ := hb e he
      simp [bondDynamic, e1, e2]
    rw [h1, h2]
    rfl

/-- Witness for C4: on a fully static two-atom graph the center is empty. -/
theorem C4_center_witness : get_center_atoms gStatic false = ∅ :=
  (C4_center gStatic false).2 (by decide) (by decide)

/-! ## C5: decomposition -/

/-- Claim C5: decomposition yields the reagent-view and product-view molecules:
both carry exactly the atom identifiers of the input (each atom reduced to its
side's view), and each side's edges are exactly the input edges whose order on
that side is truthy. -/
theorem C5_decompose (g : CGRContainer) :
    (decompose g).1.nodes = g.nodes.map (fun p => (p.1, p.2.reagent)) ∧
    (decompose g).2.nodes = g.nodes.map (fun p => (p.1, p.2.product)) ∧
    (decompose g).1.nodes.map Prod.fst = g.nodes.map Prod.fst ∧
    (decompose g).2.nodes.map Prod.fst = g.nodes.map Prod.fst ∧
    (∀ n m bv, (n, m, bv) ∈ (decompose g).1.edges ↔
       ∃ b, (n, m, b) ∈ g.edges ∧ orderTruthy b.order = true ∧ bv = b.reagent) ∧
    (∀ n m bv, (n, m, bv) ∈ (decompose g).2.edges ↔
       ∃ b, (n, m, b) ∈ g.edges ∧ orderTruthy b.p_order = true ∧ bv = b.product) := by
  refine ⟨rfl, rfl, ?_, ?_, ?_, ?_⟩
  · simp [decompose]
  · simp [decompose]
  · intro n m bv
    simp only [decompose, List.mem_map, List.mem_filter]
    constructor
    · rintro ⟨⟨i, j, b⟩, ⟨hm, ht⟩, heq⟩
      obtain ⟨rfl, rfl, rfl⟩ := Prod.mk.injEq .. ▸ (by
        injection heq with h1 h2
        injection h2 with h2 h3
        exact ⟨h1.symm, h2.symm, h3.symm⟩ : n = i ∧ m = j ∧ bv = b.reagent)
      exact ⟨b, hm, ht, rfl⟩
    · rintro ⟨b, hm, ht, rfl⟩
      exact ⟨(n, m, b), ⟨hm, ht⟩, rfl⟩
  · intro n m bv
    simp only [decompose, List.mem_map, List.mem_filter]
    constructor
    · rintro ⟨⟨i, j, b⟩, ⟨hm, ht⟩, heq⟩
      obtain ⟨rfl, rfl, rfl⟩ := Prod.mk.injEq .. ▸ (by
        injection heq with h1 h2
        injection h2 with h2 h3
        exact ⟨h1.symm, h2.symm, h3.symm⟩ : n = i ∧ m = j ∧ bv = b.product)
      exact ⟨b, hm, ht, rfl⟩
    · rintro ⟨b, hm, ht, rfl⟩
      exact ⟨(n, m, b), ⟨hm, ht⟩, rfl⟩

/-! ## C6: hybridization classification -/

/-- Claim C6: the per-side hybridization class starts at sp3 (1) and the
per-bond step never lowers it; triple (order 3) and aromatic (order 4) at once
force the respective terminal class when it is not yet terminal, and terminal
classes absorb every later order (in particular double bonds); a double bond
upgrades 1 to 2 and 2 to 3; the fold over incident reagent orders `[2, 2]`
ends at sp (3), and the full classification reset marks an atom with two
incident reagent double bonds as class 3, not 2. -/
theorem C6_hyb_monotone :
    (∀ h o, h ∈ ([1, 2, 3, 4] : List Nat) → h ≤ hybStep h o) ∧
    (∀ o, hybStep 3 o = 3) ∧
    (∀ o, hybStep 4 o = 4) ∧
    (∀ h, (h = 1 ∨ h = 2) → hybStep h 4 = 4 ∧ hybStep h 3 = 3) ∧
    hybStep 1 2 = 2 ∧ hybStep 2 2 = 3 ∧
    List.foldl hybStep 1 [2, 2] = 3 ∧
    ((reset_query_marks gTwoDouble false).1.nodes.lookup 1).map DynAtom.hybridization =
      some (some 3) := by
  refine ⟨?_, ?_, ?_, ?_, rfl, rfl, rfl, by decide⟩
  · intro h o hmem
    fin_cases hmem <;> (unfold hybStep; split_ifs <;> omega)
  · intro o
    unfold hybStep
    simp
  · intro o
    unfold hybStep
    simp
  · rintro h (rfl | rfl) <;> exact ⟨rfl, rfl⟩

/-- Witness for C6 at class 1 and a double bond. -/
theorem C6_hyb_monotone_witness :
    (1 ∈ ([1, 2, 3, 4] : List Nat)) ∧ 1 ≤ hybStep 1 2 ∧ hybStep 1 4 = 4 :=
  ⟨by decide, C6_hyb_monotone.1 1 2 (by decide),
    (C6_hyb_monotone.2.2.2.1 1 (Or.inl rfl)).1⟩

/-! ## Helper lemmas: the atom loop's stereo-validity flags -/

theorem atomPhase1_mdl_s (st : AtomLoopState) (am : Nat) (l : LegacyAtom)
    (dat? : Option AtomDat) : (atomPhase1 st am l dat?).mdl_s = st.mdl_s := by
  cases dat? <;> rfl

theorem atomPhase1_mdl_p (st : AtomLoopState) (am : Nat) (l : LegacyAtom)
    (dat? : Option AtomDat) :
    (atomPhase1 st am l dat?).mdl_p = (st.mdl_p && !pzTrigger l dat?) := by
  cases dat? with
  | none => simp [atomPhase1, pzTrigger]
  | some dat0 =>
    have hz : pzBelow { mergedAtomDat l dat0 with dz := none } =
        pzBelow (mergedAtomDat l dat0) := rfl
    simp only [atomPhase1, pzTrigger, hz]
    cases hb : pzBelow (mergedAtomDat l dat0) <;> simp [hb]

theorem atomPhase2_proj (st : AtomLoopState) (am : Nat) (l : LegacyAtom) :
    (atomPhase2 st am l).mdl_s = st.mdl_s ∧ (atomPhase2 st am l).mdl_p = st.mdl_p ∧
    (atomPhase2 st am l).atom_dz = st.atom_dz := by
  unfold atomPhase2
  split <;> exact ⟨rfl, rfl, rfl⟩

theorem atomPhase3_proj {tbl : String → List (Rat × Int)} {st : AtomLoopState} {am : Nat}
    {l : LegacyAtom} {st' : AtomLoopState} (h : atomPhase3 tbl st am l = some st') :
    st'.mdl_s = st.mdl_s ∧ st'.mdl_p = st.mdl_p ∧ st'.atom_dz = st.atom_dz := by
  unfold atomPhase3 at h
  split at h
  · cases hm : lexMax (tbl l.element) with
    | none => rw [hm] at h; exact absurd h (by simp)
    | some m =>
      rw [hm] at h
      obtain rfl : _ = st' := Option.some.inj h
      exact ⟨rfl, rfl, rfl⟩
  · obtain rfl : st = st' := Option.some.inj h
    exact ⟨rfl, rfl, rfl⟩

theorem atomPhase4_proj (st : AtomLoopState) (l : LegacyAtom) :
    (atomPhase4 st l).mdl_s = (st.mdl_s && decide (l.z = 0)) ∧
    (atomPhase4 st l).mdl_p = st.mdl_p ∧ (atomPhase4 st l).atom_dz = st.atom_dz ∧
    (atomPhase4 st l).nodes = st.nodes := by
  unfold atomPhase4
  by_cases h : l.z = 0 <;> simp [h]

theorem atomStep_flags {tbl : String → List (Rat × Int)} {st : AtomLoopState} {am : Nat}
    {l : LegacyAtom} {dat? : Option AtomDat} {st' : AtomLoopState}
    (h : atomStep tbl st am l dat? = some st') :
    st'.mdl_s = (st.mdl_s && decide (l.z = 0)) ∧
    st'.mdl_p = (st.mdl_p && !pzTrigger l dat?) := by
  unfold atomStep at h
  cases h3 : atomPhase3 tbl (atomPhase2 (atomPhase1 st am l dat?) am l) am l with
  | none => rw [h3] at h; exact absurd h (by simp)
  | some st3 =>
    rw [h3] at h
    simp only [Option.map_some'] at h
    obtain rfl : _ = st' := Option.some.inj h
    obtain ⟨e1, e2, _⟩ := atomPhase3_proj h3
    obtain ⟨f1, f2, _⟩ := atomPhase2_proj (atomPhase1 st am l dat?) am l
    refine ⟨?_, ?_⟩
    · rw [(atomPhase4_proj st3 l).1, e1, f1, atomPhase1_mdl_s]
    · rw [(atomPhase4_proj st3 l).2.1, e2, f2, atomPhase1_mdl_p]

theorem atomFold_flags (tbl : String → List (Rat × Int)) (mapping : Nat → Nat)
    (cda : List (Nat × AtomDat)) :
    ∀ (entries : List (Nat × LegacyAtom)) (st0 st' : AtomLoopState),
      atomEntriesLoop tbl mapping cda entries st0 = some st' →
      st'.mdl_s = (st0.mdl_s && entries.all (fun kl => decide (kl.2.z = 0))) ∧
      st'.mdl_p = (st0.mdl_p && entries.all (fun kl => !pzTrigger kl.2 (cda.lookup kl.1))) := by
  intro entries
  induction entries with
  | nil =>
    intro st0 st' h
    obtain rfl : st0 = st' := Option.some.inj h
    simp
  | cons e es ih =>
    intro st0 st' h
    unfold atomEntriesLoop at h
    cases hstep : atomStep tbl st0 (mapping e.1) e.2 (cda.lookup e.1) with
    | none => rw [hstep] at h; exact absurd h (by simp)
    | some st1 =>
      rw [hstep] at h
      obtain ⟨g1, g2⟩ := atomStep_flags hstep
      obtain ⟨i1, i2⟩ := ih st1 st' h
      constructor
      · rw [i1, g1, List.all_cons, ← Bool.and_assoc]
      · rw [i2, g2, List.all_cons, ← Bool.and_assoc]

theorem all_enumFrom_snd (p : LegacyAtom → Bool) (n : Nat) (l : List LegacyAtom) :
    (List.enumFrom n l).all (fun kl => p kl.2) = l.all p := by
  induction l generalizing n with
  | nil => rfl
  | cons x xs ih => simp [List.enumFrom, List.all_cons, ih]

/-! ## Helper lemmas: depth marks through the assembly passes -/

theorem applyAtomDat_dz (nd : PNode) (l : LegacyAtom) (dat : AtomDat) :
    (applyAtomDat nd l dat).s_dz = nd.s_dz ∧ (applyAtomDat nd l dat).p_dz = nd.p_dz :=
  ⟨rfl, rfl⟩

theorem nodeAdd_dzfree {nodes : List (Nat × PNode)} (i : Nat) (l : LegacyAtom)
    (dat : AtomDat) (h : DzFree nodes) : DzFree (nodeAdd nodes i l dat) := by
  induction nodes with
  | nil =>
    intro p hp
    simp only [nodeAdd, List.mem_singleton] at hp
    subst hp
    exact ⟨rfl, rfl⟩
  | cons q qs ih =>
    intro p hp
    obtain ⟨k, nd⟩ := q
    simp only [nodeAdd] at hp
    split at hp
    · rcases List.mem_cons.mp hp with rfl | hmem
      · exact ⟨(h (k, nd) (List.mem_cons_self _ _)).1, (h (k, nd) (List.mem_cons_self _ _)).2⟩
      · exact h p (List.mem_cons_of_mem _ hmem)
    · rcases List.mem_cons.mp hp with rfl | hmem
      · exact h (k, nd) (List.mem_cons_self _ _)
      · exact ih (fun q hq => h q (List.mem_cons_of_mem _ hq)) p hmem

theorem nodeModify_dzfree (nodes : List (Nat × PNode)) (i : Nat) (f : PNode → PNode)
    (hf : ∀ nd, (f nd).s_dz = nd.s_dz ∧ (f nd).p_dz = nd.p_dz)
    (h : DzFree nodes) : DzFree (nodeModify nodes i f) := by
  intro p hp
  obtain ⟨q, hq, hpq⟩ := List.mem_map.mp hp
  by_cases hc : q.1 = i
  · rw [if_pos hc] at hpq
    subst hpq
    exact ⟨(hf q.2).1.trans (h q hq).1, (hf q.2).2.trans (h q hq).2⟩
  · rw [if_neg hc] at hpq
    subst hpq
    exact h q hq

theorem atomStep_dzfree {tbl : String → List (Rat × Int)} {st : AtomLoopState} {am : Nat}
    {l : LegacyAtom} {dat? : Option AtomDat} {st' : AtomLoopState}
    (h : atomStep tbl st am l dat? = some st') (hdz : DzFree st.nodes) : DzFree st'.nodes := by
  have h1 : DzFree (atomPhase1 st am l dat?).nodes := by
    cases dat? with
    | none => exact nodeAdd_dzfree am l (plainAtomDat l) hdz
    | some dat0 => exact nodeAdd_dzfree am l _ hdz
  have h2 : DzFree (atomPhase2 (atomPhase1 st am l dat?) am l).nodes := by
    unfold atomPhase2
    split
    · show DzFree (nodeModify (atomPhase1 st am l dat?).nodes am
        (fun nd => { nd with element := some (ElemV.one l.element) }))
      exact nodeModify_dzfree _ _ _ (fun nd => ⟨rfl, rfl⟩) h1
    · exact h1
  unfold atomStep at h
  cases h3 : atomPhase3 tbl (atomPhase2 (atomPhase1 st am l dat?) am l) am l with
  | none => rw [h3] at h; exact absurd h (by simp)
  | some st3 =>
    rw [h3] at h
    simp only [Option.map_some'] at h
    obtain rfl : _ = st' := Option.some.inj h
    have h3' : DzFree st3.nodes := by
      unfold atomPhase3 at h3
      split at h3
      · cases hm : lexMax (tbl l.element) with
        | none => rw [hm] at h3; exact absurd h3 (by simp)
        | some m =>
          rw [hm] at h3
          obtain rfl : _ = st3 := Option.some.inj h3
          show DzFree (nodeModify (atomPhase2 (atomPhase1 st am l dat?) am l).nodes am
            (fun nd => { nd with isotope := some (IsoV.one (m.2 + l.isotope)) }))
          exact nodeModify_dzfree _ _ _ (fun nd => ⟨rfl, rfl⟩) h2
      · obtain rfl : _ = st3 := Option.some.inj h3
        exact h2
    rw [(atomPhase4_proj st3 l).2.2.2]
    exact h3'

theorem atomEntriesLoop_dzfree {tbl : String → List (Rat × Int)} {mapping : Nat → Nat}
    {cda : List (Nat × AtomDat)} :
    ∀ {entries : List (Nat × LegacyAtom)} {st0 st' : AtomLoopState},
      atomEntriesLoop tbl mapping cda entries st0 = some st' → DzFree st0.nodes →
      DzFree st'.nodes := by
  intro entries
  induction entries with
  | nil =>
    intro st0 st' h hdz
    obtain rfl : st0 = st' := Option.some.inj h
    exact hdz
  | cons e es ih =>
    intro st0 st' h hdz
    unfold atomEntriesLoop at h
    cases hstep : atomStep tbl st0 (mapping e.1) e.2 (cda.lookup e.1) with
    | none => rw [hstep] at h; exact absurd h (by simp)
    | some st1 =>
      rw [hstep] at h
      exact ih h (atomStep_dzfree hstep hdz)

theorem atomLoop_dzfree {tbl : String → List (Rat × Int)} {mapping : Nat → Nat}
    {cda : List (Nat × AtomDat)} {atoms : List LegacyAtom} {st : AtomLoopState}
    (h : atomLoop tbl mapping cda atoms = some st) : DzFree st.nodes :=
  atomEntriesLoop_dzfree h (fun p hp => absurd hp (List.not_mem_nil p))

theorem nodeModify_pres (Q : PNode → Prop) (nodes : List (Nat × PNode)) (i : Nat)
    (f : PNode → PNode) (hf : ∀ nd, Q nd → Q (f nd)) (h : ∀ p ∈ nodes, Q p.2) :
    ∀ p ∈ nodeModify nodes i f, Q p.2 := by
  intro p hp
  obtain ⟨q, hq, hpq⟩ := List.mem_map.mp hp
  by_cases hc : q.1 = i
  · rw [if_pos hc] at hpq
    subst hpq
    exact hf q.2 (h q hq)
  · rw [if_neg hc] at hpq
    subst hpq
    exact h q hq

theorem bondStep_sdz (mapping : Nat → Nat) (cdb : List ((Nat × Nat) × MarkDict))
    (st : AtomLoopState) (hs : st.mdl_s = false)
    (acc : List (Nat × PNode) × List (Nat × Nat × MarkDict)) (klms : Nat × Nat × Int × Int)
    (h : ∀ p ∈ acc.1, p.2.s_dz = none) :
    ∀ p ∈ (bondStep mapping cdb st acc klms).1, p.2.s_dz = none := by
  intro p hp
  simp [bondStep, hs, apply_ite] at hp
  split at hp
  · split at hp
    · refine nodeModify_pres (fun nd => nd.s_dz = none) _ _ _ ?_ h p hp
      exact fun nd hnd => hnd
    · exact h p hp
  · exact h p hp

theorem bondStep_pdz (mapping : Nat → Nat) (cdb : List ((Nat × Nat) × MarkDict))
    (st : AtomLoopState) (hp0 : st.mdl_p = false)
    (acc : List (Nat × PNode) × List (Nat × Nat × MarkDict)) (klms : Nat × Nat × Int × Int)
    (h : ∀ p ∈ acc.1, p.2.p_dz = none) :
    ∀ p ∈ (bondStep mapping cdb st acc klms).1, p.2.p_dz = none := by
  intro p hp
  simp [bondStep, hp0, apply_ite] at hp
  split at hp
  · split at hp
    · refine nodeModify_pres (fun nd => nd.p_dz = none) _ _ _ ?_ h p hp
      exact fun nd hnd => hnd
    · exact h p hp
  · exact h p hp

theorem bondFold_sdz (mapping : Nat → Nat) (cdb : List ((Nat × Nat) × MarkDict))
    (st : AtomLoopState) (hs : st.mdl_s = false) :
    ∀ (bonds : List (Nat × Nat × Int × Int))
      (acc : List (Nat × PNode) × List (Nat × Nat × MarkDict)),
      (∀ p ∈ acc.1, p.2.s_dz = none) →
      ∀ p ∈ (bonds.foldl (bondStep mapping cdb st) acc).1, p.2.s_dz = none := by
  intro bonds
  induction bonds with
  | nil => intro acc h; exact h
  | cons b bs ih =>
    intro acc h
    rw [List.foldl_cons]
    exact ih _ (bondStep_sdz mapping cdb st hs acc b h)

theorem bondFold_pdz (mapping : Nat → Nat) (cdb : List ((Nat × Nat) × MarkDict))
    (st : AtomLoopState) (hp0 : st.mdl_p = false) :
    ∀ (bonds : List (Nat × Nat × Int × Int))
      (acc : List (Nat × PNode) × List (Nat × Nat × MarkDict)),
      (∀ p ∈ acc.1, p.2.p_dz = none) →
      ∀ p ∈ (bonds.foldl (bondStep mapping cdb st) acc).1, p.2.p_dz = none := by
  intro bonds
  induction bonds with
  | nil => intro acc h; exact h
  | cons b bs ih =>
    intro acc h
    rw [List.foldl_cons]
    exact ih _ (bondStep_pdz mapping cdb st hp0 acc b h)

theorem dzFinal_sdz (atom_dz : List (Nat × Int)) :
    ∀ (nodes : List (Nat × PNode)), (∀ p ∈ nodes, p.2.s_dz = none) →
      ∀ p ∈ dzFinal atom_dz nodes, p.2.s_dz = none := by
  induction atom_dz with
  | nil => intro nodes h; exact h
  | cons ad ads ih =>
    intro nodes h
    unfold dzFinal
    rw [List.foldl_cons]
    refine ih _ ?_
    split
    · exact nodeModify_pres (fun nd => nd.s_dz = none) _ _ _ (fun nd hnd => hnd) h
    · exact h

theorem parse_molecule_eq (tbl : String → List (Rat × Int)) (mendeley : List String)
    (mapping : Nat → Nat) (mol : MolInput) (cda : List (Nat × AtomDat))
    (cdb : List ((Nat × Nat) × MarkDict)) (st : AtomLoopState)
    (hb : buildCgrDat mendeley mol = some (cda, cdb))
    (ha : atomLoop tbl mapping cda mol.atoms = some st) :
    parse_molecule tbl mendeley mapping mol =
      some { nodes := if st.mdl_p then dzFinal st.atom_dz (bondLoop mapping cdb st mol.bonds).1
                      else (bondLoop mapping cdb st mol.bonds).1,
             edges := (bondLoop mapping cdb st mol.bonds).2 } := by
  unfold parse_molecule
  rw [hb]
  simp only [Option.bind_eq_bind', Option.some_bind]
  rw [ha]
  simp only [Option.some_bind]
  rfl

/-! ## Helper lemmas: node lookup through the assembly passes -/

theorem nodeModify_cons (k : Nat) (nd : PNode) (qs : List (Nat × PNode)) (i : Nat)
    (f : PNode → PNode) :
    nodeModify ((k, nd) :: qs) i f =
      (if k = i then (k, f nd) else (k, nd)) :: nodeModify qs i f := rfl

theorem nodeModify_lookup (nodes : List (Nat × PNode)) (i : Nat) (f : PNode → PNode)
    (j : Nat) :
    (nodeModify nodes i f).lookup j =
      if i = j then (nodes.lookup j).map f else nodes.lookup j := by
  induction nodes with
  | nil => simp [nodeModify, List.lookup]
  | cons q qs ih =>
    obtain ⟨k, nd⟩ := q
    rw [nodeModify_cons]
    by_cases hk : k = i
    · subst hk
      rw [if_pos rfl]
      by_cases hj : k = j
      · subst hj
        simp [List.lookup]
      · have hb : (j == k) = false := beq_eq_false_iff_ne.mpr (fun h => hj h.symm)
        simp [List.lookup, hb, ih, hj]
    · rw [if_neg hk]
      by_cases hj : k = j
      · subst hj
        have hik : ¬ i = k := fun h => hk h.symm
        simp [List.lookup, hik]
      · have hb : (j == k) = false := beq_eq_false_iff_ne.mpr (fun h => hj h.symm)
        simp [List.lookup, hb, ih]

theorem nodeAdd_lookup_other (nodes : List (Nat × PNode)) (i : Nat) (l : LegacyAtom)
    (dat : AtomDat) (j : Nat) (hj : j ≠ i) :
    (nodeAdd nodes i l dat).lookup j = nodes.lookup j := by
  have hb : (j == i) = false := beq_eq_false_iff_ne.mpr hj
  induction nodes with
  | nil => simp [nodeAdd, List.lookup, hb]
  | cons q qs ih =>
    obtain ⟨k, nd⟩ := q
    simp only [nodeAdd]
    by_cases hk : k = i
    · subst hk
      simp [List.lookup, hb]
    · simp only [if_neg hk, List.lookup]
      by_cases hkj : k = j
      · subst hkj
        simp
      · have hb2 : (j == k) = false := beq_eq_false_iff_ne.mpr (fun h => hkj h.symm)
        simp only [hb2]
        exact ih

theorem nodeAdd_lookup_fresh (nodes : List (Nat × PNode)) (i : Nat) (l : LegacyAtom)
    (dat : AtomDat) (h : nodes.lookup i = none) :
    (nodeAdd nodes i l dat).lookup i = some (applyAtomDat (blankNode l) l dat) := by
  induction nodes with
  | nil => simp [nodeAdd, List.lookup]
  | cons q qs ih =>
    obtain ⟨k, nd⟩ := q
    simp only [List.lookup] at h
    by_cases hk : k = i
    · subst hk
      simp at h
    · have hb : (i == k) = false := beq_eq_false_iff_ne.mpr (fun h2 => hk h2.symm)
      simp only [hb] at h
      simp only [nodeAdd, if_neg hk, List.lookup, hb]
      exact ih h

theorem lookup_map_iso (o : Option PNode) (f : PNode → PNode)
    (hf : ∀ nd, (f nd).isotope = nd.isotope) :
    (o.map f).map PNode.isotope = o.map PNode.isotope := by
  cases o <;> simp [hf]

theorem mergedAtomDat_isotope (l : LegacyAtom) (dat0 : AtomDat) :
    (mergedAtomDat l dat0).isotope = dat0.isotope := by
  unfold mergedAtomDat
  dsimp only
  split <;> split <;> rfl

theorem bondStep_lookup_iso (mapping : Nat → Nat) (cdb : List ((Nat × Nat) × MarkDict))
    (st : AtomLoopState) (acc : List (Nat × PNode) × List (Nat × Nat × MarkDict))
    (klms : Nat × Nat × Int × Int) (j : Nat) :
    (((bondStep mapping cdb st acc klms).1).lookup j).map PNode.isotope =
      (acc.1.lookup j).map PNode.isotope := by
  have h1 : ∀ (ns : List (Nat × PNode)) (am : Nat) (v : Int),
      ((nodeModify ns am (fun nd => { nd with s_dz := some v })).lookup j).map PNode.isotope =
        (ns.lookup j).map PNode.isotope := by
    intro ns am v
    rw [nodeModify_lookup]
    split
    · exact lookup_map_iso _ _ (fun nd => rfl)
    · rfl
  have h2 : ∀ (ns : List (Nat × PNode)) (am : Nat) (v : Int),
      ((nodeModify ns am (fun nd => { nd with p_dz := some v })).lookup j).map PNode.isotope =
        (ns.lookup j).map PNode.isotope := by
    intro ns am v
    rw [nodeModify_lookup]
    split
    · exact lookup_map_iso _ _ (fun nd => rfl)
    · rfl
  unfold bondStep
  dsimp only
  rw [apply_ite Prod.fst]
  dsimp only
  split
  · split
    · rw [h2]
      split
      · rw [h1]
      · rfl
    · split
      · rw [h1]
      · rfl
  · rfl

theorem bondFold_lookup_iso (mapping : Nat → Nat) (cdb : List ((Nat × Nat) × MarkDict))
    (st : AtomLoopState) :
    ∀ (bonds : List (Nat × Nat × Int × Int))
      (acc : List (Nat × PNode) × List (Nat × Nat × MarkDict)) (j : Nat),
      ((bonds.foldl (bondStep mapping cdb st) acc).1.lookup j).map PNode.isotope =
        (acc.1.lookup j).map PNode.isotope := by
  intro bonds
  induction bonds with
  | nil => intro acc j; rfl
  | cons b bs ih =>
    intro acc j
    rw [List.foldl_cons]
    rw [ih]
    exact bondStep_lookup_iso mapping cdb st acc b j

theorem dzFinal_lookup_iso (atom_dz : List (Nat × Int)) :
    ∀ (nodes : List (Nat × PNode)) (j : Nat),
      ((dzFinal atom_dz nodes).lookup j).map PNode.isotope =
        (nodes.lookup j).map PNode.isotope := by
  induction atom_dz with
  | nil => intro nodes j; rfl
  | cons ad ads ih =>
    intro nodes j
    unfold dzFinal
    rw [List.foldl_cons]
    have step : ((if ad.2 ≠ 0 then
        nodeModify nodes ad.1 (fun nd => { nd with p_dz := some ad.2 }) else nodes).lookup j).map
          PNode.isotope = (nodes.lookup j).map PNode.isotope := by
      split
      · rw [nodeModify_lookup]
        split
        · exact lookup_map_iso _ _ (fun nd => rfl)
        · rfl
      · rfl
    rw [show (List.foldl (fun ns ad => if ad.2 ≠ 0 then
        nodeModify ns ad.1 (fun nd => { nd with p_dz := some ad.2 }) else ns) _ ads) =
        dzFinal ads (if ad.2 ≠ 0 then
          nodeModify nodes ad.1 (fun nd => { nd with p_dz := some ad.2 }) else nodes) from rfl]
    rw [ih]
    exact step

theorem atomPhase2_lookup_iso (st : AtomLoopState) (am : Nat) (l : LegacyAtom) (j : Nat) :
    ((atomPhase2 st am l).nodes.lookup j).map PNode.isotope =
      (st.nodes.lookup j).map PNode.isotope := by
  unfold atomPhase2
  split
  · show ((nodeModify st.nodes am
        (fun nd => { nd with element := some (ElemV.one l.element) })).lookup j).map
          PNode.isotope = _
    rw [nodeModify_lookup]
    split
    · exact lookup_map_iso _ _ (fun nd => rfl)
    · rfl
  · rfl

theorem atomStep_lookup_other {tbl : String → List (Rat × Int)} {st : AtomLoopState}
    {am : Nat} {l : LegacyAtom} {dat? : Option AtomDat} {st' : AtomLoopState}
    (h : atomStep tbl st am l dat? = some st') (j : Nat) (hj : j ≠ am) :
    st'.nodes.lookup j = st.nodes.lookup j := by
  have h1 : (atomPhase1 st am l dat?).nodes.lookup j = st.nodes.lookup j := by
    cases dat? with
    | none =>
      show (nodeAdd st.nodes am l (plainAtomDat l)).lookup j = _
      exact nodeAdd_lookup_other st.nodes am l _ j hj
    | some dat0 =>
      show (nodeAdd st.nodes am l { mergedAtomDat l dat0 with dz := none }).lookup j = _
      exact nodeAdd_lookup_other st.nodes am l _ j hj
  have h2 : (atomPhase2 (atomPhase1 st am l dat?) am l).nodes.lookup j =
      (atomPhase1 st am l dat?).nodes.lookup j := by
    unfold atomPhase2
    split
    · show (nodeModify (atomPhase1 st am l dat?).nodes am
          (fun nd => { nd with element := some (ElemV.one l.element) })).lookup j = _
      rw [nodeModify_lookup, if_neg (fun hh => hj hh.symm)]
    · rfl
  unfold atomStep at h
  cases h3 : atomPhase3 tbl (atomPhase2 (atomPhase1 st am l dat?) am l) am l with
  | none => rw [h3] at h; exact absurd h (by simp)
  | some st3 =>
    rw [h3] at h
    simp only [Option.map_some'] at h
    obtain rfl : _ = st' := Option.some.inj h
    have h3' : st3.nodes.lookup j =
        (atomPhase2 (atomPhase1 st am l dat?) am l).nodes.lookup j := by
      unfold atomPhase3 at h3
      split at h3
      · cases hm : lexMax (tbl l.element) with
        | none => rw [hm] at h3; exact absurd h3 (by simp)
        | some m =>
          rw [hm] at h3
          obtain rfl : _ = st3 := Option.some.inj h3
          show (nodeModify (atomPhase2 (atomPhase1 st am l dat?) am l).nodes am
              (fun nd => { nd with isotope := some (IsoV.one (m.2 + l.isotope)) })).lookup j = _
          rw [nodeModify_lookup, if_neg (fun hh => hj hh.symm)]
      · obtain rfl : _ = st3 := Option.some.inj h3
        rfl
    rw [(atomPhase4_proj st3 l).2.2.2, h3', h2, h1]

theorem atomStep_iso_set {tbl : String → List (Rat × Int)} {st : AtomLoopState} {am : Nat}
    {lx : LegacyAtom} {dat? : Option AtomDat} {st' : AtomLoopState} {mz : Rat × Int}
    (h : atomStep tbl st am lx dat? = some st')
    (h0 : st.nodes.lookup am = none)
    (hiso : ∀ dat0, dat? = some dat0 → dat0.isotope = none)
    (hleg : lx.isotope ≠ 0)
    (hm : lexMax (tbl lx.element) = some mz) :
    (st'.nodes.lookup am).map PNode.isotope = some (some (IsoV.one (mz.2 + lx.isotope))) := by
  have hl1 : ((atomPhase1 st am lx dat?).nodes.lookup am).map PNode.isotope = some none := by
    cases dat? with
    | none =>
      show ((nodeAdd st.nodes am lx (plainAtomDat lx)).lookup am).map PNode.isotope = some none
      rw [nodeAdd_lookup_fresh st.nodes am lx _ h0]
      rfl
    | some dat0 =>
      show ((nodeAdd st.nodes am lx
          { mergedAtomDat lx dat0 with dz := none }).lookup am).map PNode.isotope = some none
      rw [nodeAdd_lookup_fresh st.nodes am lx _ h0]
      have hi : (mergedAtomDat lx dat0).isotope = none := by
        rw [mergedAtomDat_isotope]
        exact hiso dat0 rfl
      show some (((applyAtomDat (blankNode lx) lx
          { mergedAtomDat lx dat0 with dz := none }).isotope)) = some none
      show some ((({ mergedAtomDat lx dat0 with dz := none } : AtomDat).isotope).elim none some) =
        some none
      rw [show ({ mergedAtomDat lx dat0 with dz := none } : AtomDat).isotope =
        (mergedAtomDat lx dat0).isotope from rfl, hi]
      rfl
  have hl2 : ((atomPhase2 (atomPhase1 st am lx dat?) am lx).nodes.lookup am).map PNode.isotope =
      some none := by
    rw [atomPhase2_lookup_iso]
    exact hl1
  obtain ⟨nd2, hnd2, hi2⟩ : ∃ nd2,
      (atomPhase2 (atomPhase1 st am lx dat?) am lx).nodes.lookup am = some nd2 ∧
      nd2.isotope = none := by
    cases hc : (atomPhase2 (atomPhase1 st am lx dat?) am lx).nodes.lookup am with
    | none => rw [hc] at hl2; exact absurd hl2 (by simp)
    | some nd => rw [hc] at hl2; exact ⟨nd, rfl, by simpa using hl2⟩
  have h3 : atomPhase3 tbl (atomPhase2 (atomPhase1 st am lx dat?) am lx) am lx =
      some { atomPhase2 (atomPhase1 st am lx dat?) am lx with
             nodes := nodeModify (atomPhase2 (atomPhase1 st am lx dat?) am lx).nodes am
               (fun nd => { nd with isotope := some (IsoV.one (mz.2 + lx.isotope)) }) } := by
    unfold atomPhase3
    rw [if_pos ⟨by rw [hnd2]; simp [hi2], hleg⟩, hm]
  unfold atomStep at h
  rw [h3] at h
  simp only [Option.map_some'] at h
  obtain rfl : _ = st' := Option.some.inj h
  rw [(atomPhase4_proj _ lx).2.2.2]
  show ((nodeModify (atomPhase2 (atomPhase1 st am lx dat?) am lx).nodes am
      (fun nd => { nd with isotope := some (IsoV.one (mz.2 + lx.isotope)) })).lookup am).map
        PNode.isotope = _
  rw [nodeModify_lookup, if_pos rfl, hnd2]
  rfl

theorem atomEntriesLoop_lookup_other (tbl : String → List (Rat × Int)) (mapping : Nat → Nat)
    (cda : List (Nat × AtomDat)) :
    ∀ (entries : List (Nat × LegacyAtom)) (st0 st' : AtomLoopState) (j : Nat),
      atomEntriesLoop tbl mapping cda entries st0 = some st' →
      (∀ kl ∈ entries, mapping kl.1 ≠ j) →
      st'.nodes.lookup j = st0.nodes.lookup j := by
  intro entries
  induction entries with
  | nil =>
    intro st0 st' j h _
    obtain rfl : st0 = st' := Option.some.inj h
    rfl
  | cons e es ih =>
    intro st0 st' j h hne
    unfold atomEntriesLoop at h
    cases hstep : atomStep tbl st0 (mapping e.1) e.2 (cda.lookup e.1) with
    | none => rw [hstep] at h; exact absurd h (by simp)
    | some st1 =>
      rw [hstep] at h
      rw [ih st1 st' j h (fun kl hkl => hne kl (List.mem_cons_of_mem e hkl))]
      exact atomStep_lookup_other hstep j
        (fun hh => hne e (List.mem_cons_self e es) hh.symm)

theorem atomEntriesLoop_cons (tbl : String → List (Rat × Int)) (mapping : Nat → Nat)
    (cda : List (Nat × AtomDat)) (e : Nat × LegacyAtom) (es : List (Nat × LegacyAtom))
    (st0 : AtomLoopState) :
    atomEntriesLoop tbl mapping cda (e :: es) st0 =
      match atomStep tbl st0 (mapping e.1) e.2 (cda.lookup e.1) with
      | none => none
      | some st' => atomEntriesLoop tbl mapping cda es st' := rfl

theorem atomEntriesLoop_append (tbl : String → List (Rat × Int)) (mapping : Nat → Nat)
    (cda : List (Nat × AtomDat)) (l1 l2 : List (Nat × LegacyAtom)) :
    ∀ st0, atomEntriesLoop tbl mapping cda (l1 ++ l2) st0 =
      (atomEntriesLoop tbl mapping cda l1 st0).bind
        (fun st1 => atomEntriesLoop tbl mapping cda l2 st1) := by
  induction l1 with
  | nil => intro st0; rfl
  | cons e es ih =>
    intro st0
    rw [show (e :: es) ++ l2 = e :: (es ++ l2) from rfl]
    rw [atomEntriesLoop_cons, atomEntriesLoop_cons]
    cases hstep : atomStep tbl st0 (mapping e.1) e.2 (cda.lookup e.1) with
    | none => rfl
    | some st1 => exact ih st1

/-! ## C8: stereo-inference invalidation -/

/-- Claim C8 counterexample: in a block whose atoms all have legacy z = 0 and
carry no CGR records, atom 2's derived product-z is 0, strictly below the
0.0001 threshold, yet the product side is not invalidated: the legacy wedge
code on the bond still seeds the product depth mark `p_dz = 1` on atom 2.  The
product-z check runs only for atoms carrying an atom-keyed CGR record. -/
theorem C8_counterexample :
    ((parse_molecule tblC [] id molWedge).bind (fun g => g.nodes.lookup 2)).map PNode.p_dz =
      some (some 1) ∧
    ((parse_molecule tblC [] id molWedge).bind (fun g => g.nodes.lookup 2)).map PNode.p_z =
      some (some 0) ∧
    ((0 : Rat) < mkRat 1 10000) := by
  refine ⟨rfl, rfl, by norm_num [Rat.mkRat_eq_div]⟩

/-- Claim C8 amended: reagent-side stereo inference is invalidated for the
whole block exactly when some atom carries a nonzero legacy z; product-side
inference is invalidated exactly when some atom that carries an atom-keyed CGR
record has derived product-z below the 0.0001 threshold (atoms without records
never trigger it); and once a side is invalidated no node of the parsed block
carries a depth mark on that side. -/
theorem C8_stereo_invalidation (tbl : String → List (Rat × Int)) (mendeley : List String)
    (mapping : Nat → Nat) (mol : MolInput) (cda : List (Nat × AtomDat))
    (cdb : List ((Nat × Nat) × MarkDict)) (st : AtomLoopState)
    (hb : buildCgrDat mendeley mol = some (cda, cdb))
    (ha : atomLoop tbl mapping cda mol.atoms = some st) :
    (st.mdl_s = false ↔ ∃ l ∈ mol.atoms, l.z ≠ 0) ∧
    (st.mdl_p = false ↔ ∃ kl ∈ List.enumFrom 1 mol.atoms,
       pzTrigger kl.2 (cda.lookup kl.1) = true) ∧
    (∀ g, parse_molecule tbl mendeley mapping mol = some g →
       (st.mdl_s = false → ∀ p ∈ g.nodes, p.2.s_dz = none) ∧
       (st.mdl_p = false → ∀ p ∈ g.nodes, p.2.p_dz = none)) := by
  obtain ⟨hfs, hfp⟩ := atomFold_flags tbl mapping cda (List.enumFrom 1 mol.atoms) _ st ha
  refine ⟨?_, ?_, ?_⟩
  · rw [hfs]
    simp only [Bool.true_and]
    rw [all_enumFrom_snd (fun a => decide (a.z = 0)) 1 mol.atoms]
    constructor
    · intro hall
      obtain ⟨lx, hmem, hz⟩ := List.all_eq_false.mp hall
      exact ⟨lx, hmem, by simpa using hz⟩
    · rintro ⟨lx, hmem, hz⟩
      exact List.all_eq_false.mpr ⟨lx, hmem, by simpa using hz⟩
  · rw [hfp]
    simp only [Bool.true_and]
    constructor
    · intro hall
      obtain ⟨kl, hmem, ht⟩ := List.all_eq_false.mp hall
      exact ⟨kl, hmem, by simpa using ht⟩
    · rintro ⟨kl, hmem, ht⟩
      exact List.all_eq_false.mpr ⟨kl, hmem, by simp [ht]⟩
  · intro g hg
    rw [parse_molecule_eq tbl mendeley mapping mol cda cdb st hb ha] at hg
    obtain rfl : _ = g := Option.some.inj hg
    have hdz := atomLoop_dzfree ha
    constructor
    · intro hs p hp
      simp only at hp
      split at hp
      · exact dzFinal_sdz st.atom_dz _
          (bondFold_sdz mapping cdb st hs mol.bonds (st.nodes, [])
            (fun q hq => (hdz q hq).1)) p hp
      · exact bondFold_sdz mapping cdb st hs mol.bonds (st.nodes, [])
          (fun q hq => (hdz q hq).1) p hp
    · intro hp0 p hp
      simp only [hp0] at hp
      exact bondFold_pdz mapping cdb st hp0 mol.bonds (st.nodes, [])
        (fun q hq => (hdz q hq).2) p hp

/-- Witness for C8 on the wedge block with a charge record on atom 1: the
product side is invalidated and no product depth mark is seeded. -/
theorem C8_stereo_invalidation_witness :
    buildCgrDat [] molWedgeRec = some (cdaWedgeRec, []) ∧
    atomLoop tblC id cdaWedgeRec molWedgeRec.atoms = some stWedgeRec ∧
    stWedgeRec.mdl_p = false ∧
    (parse_molecule tblC [] id molWedgeRec).elim False
      (fun g => ∀ p ∈ g.nodes, p.2.p_dz = none) := by
  have hb : buildCgrDat [] molWedgeRec = some (cdaWedgeRec, []) := by decide
  have hst : atomLoop tblC id cdaWedgeRec molWedgeRec.atoms = some stWedgeRec := by decide
  obtain ⟨h1, h2, h3⟩ :=
    C8_stereo_invalidation tblC [] id molWedgeRec cdaWedgeRec [] stWedgeRec hb hst
  have hp0 : stWedgeRec.mdl_p = false :=
    h2.mpr ⟨(1, { element := "C", charge := 0 }), by decide, by decide⟩
  refine ⟨hb, hst, hp0, ?_⟩
  cases hg : parse_molecule tblC [] id molWedgeRec with
  | none => exact absurd hg (by decide)
  | some g => exact (h3 g hg).2 hp0

/-! ## C9: legacy isotope field is a delta on the most-abundant mass -/

/-- Claim C9: a decoded atom with no isotope extension record but a nonzero
legacy isotope field stores as its isotope the mass number of the element's
most-abundant isotope (lexicographic max of the abundance table) plus the
legacy field value — the legacy field is a delta, not an absolute mass. -/
theorem C9_isotope_delta (tbl : String → List (Rat × Int)) (mendeley : List String)
    (mapping : Nat → Nat) (mol : MolInput) (cda : List (Nat × AtomDat))
    (cdb : List ((Nat × Nat) × MarkDict)) (g : ParsedMol) (k : Nat) (lx : LegacyAtom)
    (mz : Rat × Int)
    (hb : buildCgrDat mendeley mol = some (cda, cdb))
    (hg : parse_molecule tbl mendeley mapping mol = some g)
    (hk : (k, lx) ∈ List.enumFrom 1 mol.atoms)
    (hinj : ∀ k1 ∈ (List.enumFrom 1 mol.atoms).map Prod.fst,
        ∀ k2 ∈ (List.enumFrom 1 mol.atoms).map Prod.fst, mapping k1 = mapping k2 → k1 = k2)
    (hiso : ∀ dat0, cda.lookup k = some dat0 → dat0.isotope = none)
    (hleg : lx.isotope ≠ 0)
    (hm : lexMax (tbl lx.element) = some mz) :
    (g.nodes.lookup (mapping k)).map PNode.isotope =
      some (some (IsoV.one (mz.2 + lx.isotope))) := by
  cases hst : atomLoop tbl mapping cda mol.atoms with
  | none =>
    exfalso
    unfold parse_molecule at hg
    rw [hb] at hg
    simp only [Option.bind_eq_bind', Option.some_bind] at hg
    rw [hst] at hg
    simp at hg
  | some st =>
    rw [parse_molecule_eq tbl mendeley mapping mol cda cdb st hb hst] at hg
    obtain rfl : _ = g := Option.some.inj hg
    show ((if st.mdl_p = true then dzFinal st.atom_dz (bondLoop mapping cdb st mol.bonds).1
        else (bondLoop mapping cdb st mol.bonds).1).lookup (mapping k)).map PNode.isotope = _
    have hbf := bondFold_lookup_iso mapping cdb st mol.bonds (st.nodes, []) (mapping k)
    have hreduce : ((if st.mdl_p = true then
        dzFinal st.atom_dz (bondLoop mapping cdb st mol.bonds).1
        else (bondLoop mapping cdb st mol.bonds).1).lookup (mapping k)).map PNode.isotope =
        (st.nodes.lookup (mapping k)).map PNode.isotope := by
      split
      · rw [dzFinal_lookup_iso]
        exact hbf
      · exact hbf
    rw [hreduce]
    obtain ⟨pre, post, hsplit⟩ := List.append_of_mem hk
    have hloop : atomEntriesLoop tbl mapping cda (pre ++ (k, lx) :: post)
        ({ nodes := [], atom_dz := [] } : AtomLoopState) = some st := by
      rw [← hsplit]
      exact hst
    rw [atomEntriesLoop_append] at hloop
    cases hpre : atomEntriesLoop tbl mapping cda pre { nodes := [], atom_dz := [] } with
    | none => rw [hpre] at hloop; exact absurd hloop (by simp)
    | some stP =>
      rw [hpre] at hloop
      simp only [Option.some_bind] at hloop
      rw [atomEntriesLoop_cons] at hloop
      cases hmid : atomStep tbl stP (mapping (k, lx).1) (k, lx).2 (cda.lookup (k, lx).1) with
      | none => rw [hmid] at hloop; exact absurd hloop (by simp)
      | some stM =>
        rw [hmid] at hloop
        have hnd : ((List.enumFrom 1 mol.atoms).map Prod.fst).Nodup := by
          rw [List.enumFrom_map_fst]
          exact List.nodup_range' 1 mol.atoms.length
        have hmemk : k ∈ (List.enumFrom 1 mol.atoms).map Prod.fst :=
          List.mem_map.mpr ⟨(k, lx), hk, rfl⟩
        have hsplit' : (List.enumFrom 1 mol.atoms).map Prod.fst =
            pre.map Prod.fst ++ k :: post.map Prod.fst := by
          rw [hsplit]
          simp
        rw [hsplit'] at hnd
        obtain ⟨hnd1, hnd2, hdisj⟩ := List.nodup_append.mp hnd
        have hkpre : ∀ kl ∈ pre, kl.1 ≠ k := by
          intro kl hkl hkk
          exact hdisj (List.mem_map_of_mem Prod.fst hkl)
            (hkk ▸ List.mem_cons_self k (post.map Prod.fst))
        have hkpost : ∀ kl ∈ post, kl.1 ≠ k := by
          intro kl hkl hkk
          exact (List.nodup_cons.mp hnd2).1 (List.mem_map.mpr ⟨kl, hkl, hkk⟩)
        have hmemP : ∀ kl ∈ pre, kl.1 ∈ (List.enumFrom 1 mol.atoms).map Prod.fst := by
          intro kl hkl
          rw [hsplit']
          exact List.mem_append_of_mem_left _ (List.mem_map_of_mem Prod.fst hkl)
        have hmemQ : ∀ kl ∈ post, kl.1 ∈ (List.enumFrom 1 mol.atoms).map Prod.fst := by
          intro kl hkl
          rw [hsplit']
          exact List.mem_append_of_mem_right _
            (List.mem_cons_of_mem k (List.mem_map_of_mem Prod.fst hkl))
        have hmapsP : ∀ kl ∈ pre, mapping kl.1 ≠ mapping k := fun kl hkl heq =>
          hkpre kl hkl (hinj kl.1 (hmemP kl hkl) k hmemk heq)
        have hmapsQ : ∀ kl ∈ post, mapping kl.1 ≠ mapping k := fun kl hkl heq =>
          hkpost kl hkl (hinj kl.1 (hmemQ kl hkl) k hmemk heq)
        have hP0 : stP.nodes.lookup (mapping k) = none := by
          rw [atomEntriesLoop_lookup_other tbl mapping cda pre _ stP (mapping k) hpre hmapsP]
          rfl
        have hM := atomStep_iso_set hmid hP0 hiso hleg hm
        rw [atomEntriesLoop_lookup_other tbl mapping cda post stM st (mapping k) hloop hmapsQ]
        exact hM

/-- Witness for C9: nitrogen with legacy isotope field 1 stores 14 + 1 = 15. -/
theorem C9_isotope_delta_witness :
    ((parse_molecule tblC [] id molIso).bind
      (fun g => g.nodes.lookup 1)).map PNode.isotope = some (some (IsoV.one 15)) := by
  cases hg : parse_molecule tblC [] id molIso with
  | none => exact absurd hg (by decide)
  | some g =>
    have h := C9_isotope_delta tblC [] id molIso [] [] g 1
      { element := "N", charge := 0, isotope := 1 } (mkRat 996 1000, 14)
      (by decide) hg (by decide)
      (by intro k1 h1 k2 h2 he; simpa using he)
      (by intro dat0 hd; simp at hd) (by decide) (by decide)
    simpa using h

end CGR
